import Mathlib

/-!
# geard: key distribution job and host user reconciliation

A shallow embedding of `jobs/create_keys.go` and `cleanup/cleanup_users.go`.

Go `error` values are modelled by `GoError`; a `nil` error is `none`.  Everything the two
files call but do not define (the ssh library, the identifier and path resolver, the
operating system) is taken as a parameter: `KeyEnv` for the pure collaborators, `KeyHost`
and `CleanHost` for the stateful ones.  `MemFS` is one concrete in-memory host, a tree of
directories, files and links whose `Stat` follows links; it serves the examples.
-/

set_option autoImplicit false
set_option maxRecDepth 100000

namespace Geard

/-! ## Go errors -/

/-- The classes of error that the predicates `os.IsExist` and `os.IsNotExist` tell apart. -/
inductive ErrKind where
  | exist
  | notExist
  | permission
  | other
deriving DecidableEq, Repr

/-- A Go `error` value: its `Error()` text and its class. -/
structure GoError where
  text : String
  kind : ErrKind
deriving DecidableEq, Repr

/-- Go `errors.New`. -/
def errorsNew (text : String) : GoError := ⟨text, ErrKind.other⟩

/-- Go `err.Error()`. -/
def GoError.Error (e : GoError) : String := e.text

/-- Go `os.IsExist(err)` for a non-nil `err`. -/
def osIsExist (err : GoError) : Bool := err.kind == ErrKind.exist

/-- Go `os.IsNotExist(err)`; a nil error is not a not-exist error. -/
def osIsNotExist : Option GoError → Bool
  | some err => err.kind == ErrKind.notExist
  | none => false

/-! ## jobs/create_keys.go: data -/

/-- Go `gears.Identifier`, a string type. -/
abbrev Identifier := String

/-- Go `[]byte`. -/
abbrev Bytes := List UInt8

/-- Go `utils.Fingerprint`, a byte slice. -/
abbrev Fingerprint := Bytes

/-- Go `KeyData`; its field `Type` is spelled `Typ` here, `Type` being reserved. -/
structure KeyData where
  Typ : String
  Value : String
deriving DecidableEq, Repr

structure RepositoryPermission where
  Id : Identifier
  Write : Bool
deriving DecidableEq, Repr

structure GearPermission where
  Id : Identifier
deriving DecidableEq, Repr

structure ExtendedCreateKeysData where
  Keys : List KeyData
  Repositories : List RepositoryPermission
  Gears : List GearPermission
deriving DecidableEq, Repr

structure CreateKeysRequest where
  UserId : String
  Data : ExtendedCreateKeysData
deriving DecidableEq, Repr

structure KeyFailure where
  Index : Nat
  Key : KeyData
  Reason : GoError
deriving DecidableEq, Repr

structure KeyStructuredFailure where
  Index : Nat
  Message : String
deriving DecidableEq, Repr

/-- What `Execute` hands to its `JobResponse`: `resp.Success(JobResponseOk)` or
`resp.Failure(StructuredJobError{SimpleJobError{JobResponseError, message}, data})`. -/
inductive Response where
  | Success
  | Failure (message : String) (data : List KeyStructuredFailure)
deriving DecidableEq, Repr

/-! ## jobs/create_keys.go: validation -/

/-- Go `(*KeyData).Check`. -/
def KeyData.Check (k : KeyData) : Option GoError :=
  if k.Typ = "ssh-rsa" ∨ k.Typ = "ssh-dsa" ∨ k.Typ = "ssh-ecdsa" then
    if k.Value = "" then
      some (errorsNew "Value must be specified.")
    else
      none
  else
    some (errorsNew "Type must be one of \x27ssh-rsa\x27, \x27ssh-dsa\x27, or \x27ssh-ecdsa\x27")

/-- Go `(*RepositoryPermission).Check`; `NewIdentifier` is `gears.NewIdentifier`. -/
def RepositoryPermission.Check (NewIdentifier : String → Except GoError Identifier)
    (p : RepositoryPermission) : Option GoError :=
  match NewIdentifier p.Id with
  | Except.ok _ => none
  | Except.error err => some err

/-- Go `(*GearPermission).Check`; `NewIdentifier` is `gears.NewIdentifier`. -/
def GearPermission.Check (NewIdentifier : String → Except GoError Identifier)
    (p : GearPermission) : Option GoError :=
  match NewIdentifier p.Id with
  | Except.ok _ => none
  | Except.error err => some err

/-- Go `(*ExtendedCreateKeysData).Check`: each loop returns the first error it meets. -/
def ExtendedCreateKeysData.Check (NewIdentifier : String → Except GoError Identifier)
    (d : ExtendedCreateKeysData) : Option GoError :=
  match d.Keys.findSome? KeyData.Check with
  | some err => some err
  | none =>
    match d.Gears.findSome? (GearPermission.Check NewIdentifier) with
    | some err => some err
    | none =>
      match d.Repositories.findSome? (RepositoryPermission.Check NewIdentifier) with
      | some err => some err
      | none =>
        if d.Keys.length = 0 then
          some (errorsNew "One or more keys must be specified.")
        else if d.Repositories.length = 0 ∧ d.Gears.length = 0 then
          some (errorsNew "Either repositories or gears must be specified.")
        else
          none

/-- The identifier parser accepts `s`. -/
def accepts (NewIdentifier : String → Except GoError Identifier) (s : String) : Bool :=
  match NewIdentifier s with
  | Except.ok _ => true
  | Except.error _ => false

/-! ## jobs/create_keys.go: collaborators -/

/-- Go `[32]byte`, the result type of `sha256.Sum256` (`sha256.Size = 32`). -/
structure Array32 where
  bytes : Bytes
  size_eq : bytes.length = 32

/-- The pure collaborators of `Execute`, none of which the job defines: the ssh library
(`ParseAuthorizedKey` takes the key text, the conversion `[]byte(key.Value)` being part of
it; `Marshal` is the `ssh.PublicKey` method), `sha256.Sum256`, and the path resolver. -/
structure KeyEnv (PK : Type) where
  ParseAuthorizedKey : String → Option PK
  MarshalAuthorizedKey : PK → Bytes
  Marshal : PK → Bytes
  Sum256 : Bytes → Array32
  PublicKeyPathFor : Fingerprint → String
  UnitPathFor : Identifier → String
  SshAccessPathFor : Identifier → Fingerprint → String
  AuthKeysPathFor : Identifier → String
  RepositoryPathFor : Identifier → String
  GitAccessPathFor : Identifier → Fingerprint → Bool → String

/-- The stateful collaborators of `Execute` over a host state `σ`:
`utils.AtomicWriteToContentPath`, `os.Stat` (its `FileInfo` is never used), `os.Symlink`
and `os.Remove`.  Each returns the next host state and the error, `none` for nil. -/
structure KeyHost (σ : Type) where
  AtomicWriteToContentPath : σ → String → Nat → Bytes → σ × Option GoError
  Stat : σ → String → σ × Option GoError
  Symlink : σ → String → String → σ × Option GoError
  Remove : σ → String → σ × Option GoError

/-! ## jobs/create_keys.go: the job -/

/-- Go `KeyFingerprint`: the SHA-256 digest of the wire encoding, as a slice. -/
def KeyFingerprint {PK : Type} (env : KeyEnv PK) (key : PK) : Fingerprint :=
  (env.Sum256 (env.Marshal key)).bytes

/-- Body of the loop over `j.Data.Gears` in `Execute`, for key `i`; the pair is the host
state and `failedKeys`. -/
def grantGear {σ PK : Type} (h : KeyHost σ) (env : KeyEnv PK) (i : Nat) (key : KeyData)
    (path : String) (fingerprint : Fingerprint) (st : σ × List KeyFailure)
    (p : GearPermission) : σ × List KeyFailure :=
  let r1 := h.Stat st.1 (env.UnitPathFor p.Id)
  let failedKeys1 :=
    match r1.2 with
    | some err => st.2 ++ [KeyFailure.mk i key err]
    | none => st.2
  let r2 := h.Symlink r1.1 path (env.SshAccessPathFor p.Id fingerprint)
  let failedKeys2 :=
    match r2.2 with
    | some err => if !osIsExist err then failedKeys1 ++ [KeyFailure.mk i key err] else failedKeys1
    | none => failedKeys1
  let r3 := h.Stat r2.1 (env.AuthKeysPathFor p.Id)
  match r3.2 with
  | none =>
    let r4 := h.Remove r3.1 (env.AuthKeysPathFor p.Id)
    match r4.2 with
    | some err => (r4.1, failedKeys2 ++ [KeyFailure.mk i key err])
    | none => (r4.1, failedKeys2)
  | some _ => (r3.1, failedKeys2)

/-- Body of the loop over `j.Data.Repositories` in `Execute`, for key `i`. -/
def grantRepository {σ PK : Type} (h : KeyHost σ) (env : KeyEnv PK) (i : Nat) (key : KeyData)
    (path : String) (fingerprint : Fingerprint) (st : σ × List KeyFailure)
    (p : RepositoryPermission) : σ × List KeyFailure :=
  let r1 := h.Stat st.1 (env.RepositoryPathFor p.Id)
  let failedKeys1 :=
    match r1.2 with
    | some err => st.2 ++ [KeyFailure.mk i key err]
    | none => st.2
  let accessPath := env.GitAccessPathFor p.Id fingerprint p.Write
  let r2 := h.Symlink r1.1 path accessPath
  match r2.2 with
  | some err =>
    if !osIsExist err then (r2.1, failedKeys1 ++ [KeyFailure.mk i key err]) else (r2.1, failedKeys1)
  | none => (r2.1, failedKeys1)

/-- Body of the loop over `j.Data.Keys` in `Execute`: parse, store, then the two grant loops;
a parse or store failure records one failure and continues with the next key. -/
def processKey {σ PK : Type} (h : KeyHost σ) (env : KeyEnv PK) (d : ExtendedCreateKeysData)
    (i : Nat) (key : KeyData) (st : σ × List KeyFailure) : σ × List KeyFailure :=
  match env.ParseAuthorizedKey key.Value with
  | none => (st.1, st.2 ++ [KeyFailure.mk i key (errorsNew "Unable to parse key")])
  | some pk =>
    let value := env.MarshalAuthorizedKey pk
    let fingerprint := KeyFingerprint env pk
    let path := env.PublicKeyPathFor fingerprint
    let w := h.AtomicWriteToContentPath st.1 path 0o660 value
    match w.2 with
    | some err => (w.1, st.2 ++ [KeyFailure.mk i key err])
    | none =>
      d.Repositories.foldl (grantRepository h env i key path fingerprint)
        (d.Gears.foldl (grantGear h env i key path fingerprint) (w.1, st.2))

/-- The loop `for i := range j.Data.Keys`, entered at index `i` with the keys still to do. -/
def keysLoop {σ PK : Type} (h : KeyHost σ) (env : KeyEnv PK) (d : ExtendedCreateKeysData) :
    Nat → List KeyData → σ × List KeyFailure → σ × List KeyFailure
  | _, [], st => st
  | i, key :: rest, st => keysLoop h env d (i + 1) rest (processKey h env d i key st)

/-- The entry `KeyStructuredFailure{failedKeys[i].Index, failedKeys[i].Reason.Error()}`. -/
def toStructured (f : KeyFailure) : KeyStructuredFailure :=
  KeyStructuredFailure.mk f.Index f.Reason.Error

/-- The tail of `Execute`: the response built from `failedKeys`. -/
def respond (failedKeys : List KeyFailure) : Response :=
  if failedKeys.length > 0 then
    Response.Failure "Not all keys were completed" (failedKeys.map toStructured)
  else
    Response.Success

/-- Go `(*CreateKeysRequest).Execute`: the final host state and the response. The lines
written with `log.Printf` are not part of the model. -/
def CreateKeysRequest.Execute {σ PK : Type} (h : KeyHost σ) (env : KeyEnv PK)
    (j : CreateKeysRequest) (s : σ) : σ × Response :=
  let out := keysLoop h env j.Data 0 j.Data.Keys (s, [])
  (out.1, respond out.2)

/-! ## Observing the host calls -/

/-- A call made to the host. -/
inductive Call where
  | write (path : String) (mode : Nat) (value : Bytes)
  | stat (path : String)
  | symlink (oldname newname : String)
  | remove (path : String)
deriving DecidableEq, Repr

/-- The host `h` with a journal: every call is appended, with its error, to the second
component of the state. -/
def KeyHost.recording {σ : Type} (h : KeyHost σ) : KeyHost (σ × List (Call × Option GoError)) where
  AtomicWriteToContentPath st p m v :=
    let r := h.AtomicWriteToContentPath st.1 p m v
    ((r.1, st.2 ++ [(Call.write p m v, r.2)]), r.2)
  Stat st p :=
    let r := h.Stat st.1 p
    ((r.1, st.2 ++ [(Call.stat p, r.2)]), r.2)
  Symlink st o n :=
    let r := h.Symlink st.1 o n
    ((r.1, st.2 ++ [(Call.symlink o n, r.2)]), r.2)
  Remove st p :=
    let r := h.Remove st.1 p
    ((r.1, st.2 ++ [(Call.remove p, r.2)]), r.2)

/-- The call is an `os.Symlink`. -/
def Call.isSymlink : Call → Bool
  | Call.symlink _ _ => true
  | _ => false

/-- The symlink creations attempted in a journal, in order. -/
def linkAttempts (journal : List (Call × Option GoError)) : List Call :=
  (journal.map Prod.fst).filter Call.isSymlink

/-! ## An in-memory filesystem -/

/-- What a path of the in-memory filesystem holds. -/
inductive Node where
  | file (mode : Nat) (content : Bytes)
  | link (target : String)
  | dir
deriving DecidableEq, Repr

/-- The error numbers the in-memory filesystem reports. -/
inductive Errno where
  | ENOENT
  | EEXIST
  | EACCES
  | ENOTDIR
  | EISDIR
  | ENOTEMPTY
  | ELOOP
deriving DecidableEq, Repr

/-- The text of an error number, as Go prints it. -/
def Errno.text : Errno → String
  | Errno.ENOENT => "no such file or directory"
  | Errno.EEXIST => "file exists"
  | Errno.EACCES => "permission denied"
  | Errno.ENOTDIR => "not a directory"
  | Errno.EISDIR => "is a directory"
  | Errno.ENOTEMPTY => "directory not empty"
  | Errno.ELOOP => "too many levels of symbolic links"

/-- The class of an error number for `os.IsExist` and `os.IsNotExist`; `os.IsExist` holds
for `ENOTEMPTY` as well as for `EEXIST`. -/
def Errno.kind : Errno → ErrKind
  | Errno.ENOENT => ErrKind.notExist
  | Errno.EEXIST => ErrKind.exist
  | Errno.ENOTEMPTY => ErrKind.exist
  | Errno.EACCES => ErrKind.permission
  | _ => ErrKind.other

/-- Go `*os.PathError`: its text is the operation, the path and the error. -/
def pathError (op path : String) (e : Errno) : GoError :=
  ⟨op ++ " " ++ path ++ ": " ++ e.text, e.kind⟩

/-- Go `*os.LinkError`: its text is the operation, both names and the error. -/
def linkError (op oldname newname : String) (e : Errno) : GoError :=
  ⟨op ++ " " ++ oldname ++ " " ++ newname ++ ": " ++ e.text, e.kind⟩

/-- The error of an operation on a path that does not exist. -/
def errNotExist (op path : String) : GoError :=
  ⟨op ++ " " ++ path ++ ": no such file or directory", ErrKind.notExist⟩

/-- An in-memory filesystem: the entries below the root directory, each under its absolute
path, and the directories in which the host refuses to create, replace or remove an entry.
The root directory `/` always exists. Paths are absolute, without `.` and `..`; the target of
a link is an absolute path. -/
structure MemFS where
  entries : List (String × Node)
  readOnly : List String
deriving DecidableEq, Repr

/-- What the filesystem holds under exactly the path `p`, links not followed. -/
def MemFS.lookup (fs : MemFS) (p : String) : Option Node :=
  (fs.entries.find? fun e => e.1 = p).map Prod.snd

/-- The components of a path. -/
def pathParts (p : String) : List String :=
  ((p.toList.splitOn '/').filter fun c => c ≠ []).map String.mk

/-- The path of the entry `name` in the directory `dir`. -/
def joinPath (dir name : String) : String :=
  if dir = "/" then "/" ++ name else dir ++ "/" ++ name

/-- Path resolution from the directory `cur` along `parts`: every component but the last must
be a directory or a link to one; the last is followed too when `follow` is set. The result is
the path under which the entry is held. Each component and each link followed costs one unit
of `fuel`, and running out of it is reported as a link loop (Linux gives up after 40 links). -/
def MemFS.walk (fs : MemFS) : Nat → String → List String → Bool → Except Errno String
  | 0, _, _, _ => Except.error Errno.ELOOP
  | _ + 1, cur, [], _ => Except.ok cur
  | fuel + 1, cur, c :: rest, follow =>
    match fs.lookup (joinPath cur c) with
    | none => Except.error Errno.ENOENT
    | some Node.dir => fs.walk fuel (joinPath cur c) rest follow
    | some (Node.file _ _) =>
      if rest = [] then Except.ok (joinPath cur c) else Except.error Errno.ENOTDIR
    | some (Node.link target) =>
      if rest = [] ∧ follow = false then Except.ok (joinPath cur c)
      else fs.walk fuel "/" (pathParts target ++ rest) follow

/-- Equality of the results of a path resolution can be decided. -/
instance {ε α : Type} [DecidableEq ε] [DecidableEq α] : DecidableEq (Except ε α)
  | Except.ok a, Except.ok b =>
    if hab : a = b then isTrue (by rw [hab]) else isFalse (fun h2 => hab (Except.ok.inj h2))
  | Except.error a, Except.error b =>
    if hab : a = b then isTrue (by rw [hab]) else isFalse (fun h2 => hab (Except.error.inj h2))
  | Except.ok _, Except.error _ => isFalse (fun h2 => Except.noConfusion h2)
  | Except.error _, Except.ok _ => isFalse (fun h2 => Except.noConfusion h2)

/-- The fuel of a path resolution. -/
def walkFuel : Nat := 64

/-- Where the entry named by `p` is or would be held: its directory, resolved with links
followed, and its name in that directory. The last component itself is not followed. -/
def MemFS.locate (fs : MemFS) (p : String) : Except Errno (String × String) :=
  match (pathParts p).reverse with
  | [] => Except.error Errno.EEXIST
  | name :: parents =>
    match fs.walk walkFuel "/" parents.reverse true with
    | Except.error e => Except.error e
    | Except.ok d =>
      if d = "/" ∨ fs.lookup d = some Node.dir then Except.ok (d, name)
      else Except.error Errno.ENOTDIR

/-- The filesystem with the entry under `p` set to `n`. -/
def MemFS.set (fs : MemFS) (p : String) (n : Node) : MemFS :=
  if fs.lookup p = none then
    { fs with entries := fs.entries ++ [(p, n)] }
  else
    { fs with entries := fs.entries.map fun e => if e.1 = p then (p, n) else e }

/-- The filesystem without the entry under `p`. -/
def MemFS.erase (fs : MemFS) (p : String) : MemFS :=
  { fs with entries := fs.entries.filter fun e => e.1 ≠ p }

/-- Some entry is held below the directory `p`. -/
def MemFS.hasChildren (fs : MemFS) (p : String) : Bool :=
  fs.entries.any fun e => (p.toList ++ ['/']).isPrefixOf e.1.toList

/-- Model of `os.Stat`: resolves the path, following links, and fails as the resolution
does. -/
def MemFS.Stat (fs : MemFS) (p : String) : MemFS × Option GoError :=
  match fs.walk walkFuel "/" (pathParts p) true with
  | Except.ok _ => (fs, none)
  | Except.error e => (fs, some (pathError "stat" p e))

/-- Model of `os.Symlink`: the directory of the new name must resolve; the call fails with
a file-exists error when the new name is held by any entry, is refused in a read-only
directory, and creates the link otherwise. -/
def MemFS.Symlink (fs : MemFS) (oldname newname : String) : MemFS × Option GoError :=
  match fs.locate newname with
  | Except.error e => (fs, some (linkError "symlink" oldname newname e))
  | Except.ok (d, name) =>
    if fs.lookup (joinPath d name) ≠ none then
      (fs, some (linkError "symlink" oldname newname Errno.EEXIST))
    else if d ∈ fs.readOnly then
      (fs, some (linkError "symlink" oldname newname Errno.EACCES))
    else
      (fs.set (joinPath d name) (Node.link oldname), none)

/-- Model of `os.Remove`: removes the entry the path names, a link itself and not its
target; a directory only when it is empty. -/
def MemFS.Remove (fs : MemFS) (p : String) : MemFS × Option GoError :=
  match fs.locate p with
  | Except.error e => (fs, some (pathError "remove" p e))
  | Except.ok (d, name) =>
    match fs.lookup (joinPath d name) with
    | none => (fs, some (pathError "remove" p Errno.ENOENT))
    | some n =>
      if d ∈ fs.readOnly then
        (fs, some (pathError "remove" p Errno.EACCES))
      else if n = Node.dir ∧ fs.hasChildren (joinPath d name) = true then
        (fs, some (pathError "remove" p Errno.ENOTEMPTY))
      else
        (fs.erase (joinPath d name), none)

/-- Modelled from the spec: `utils.AtomicWriteToContentPath`, which is not among the sources.
An all-or-nothing write with the given permission bits (temp file in the directory of the
path, then atomic rename): the path holds the new content afterwards, so storing identical
content again changes nothing; it fails where the directory does not resolve or is
read-only, and where the path is held by a directory. -/
def MemFS.AtomicWriteToContentPath (fs : MemFS) (p : String) (mode : Nat) (value : Bytes) :
    MemFS × Option GoError :=
  match fs.locate p with
  | Except.error e => (fs, some (pathError "open" p e))
  | Except.ok (d, name) =>
    if d ∈ fs.readOnly then
      (fs, some (pathError "open" p Errno.EACCES))
    else if fs.lookup (joinPath d name) = some Node.dir then
      (fs, some (pathError "rename" p Errno.EISDIR))
    else
      (fs.set (joinPath d name) (Node.file mode value), none)

/-- The in-memory filesystem as a host for `Execute`. -/
def memHost : KeyHost MemFS where
  AtomicWriteToContentPath := MemFS.AtomicWriteToContentPath
  Stat := MemFS.Stat
  Symlink := MemFS.Symlink
  Remove := MemFS.Remove

/-! ## The sub-steps of the job -/

/-- The sub-steps of processing one key; `k` is the position of the target in `Gears` or in
`Repositories`. -/
inductive SubStep where
  | parse
  | store
  | gearExists (k : Nat)
  | gearLink (k : Nat)
  | legacyRemove (k : Nat)
  | repositoryExists (k : Nat)
  | repositoryLink (k : Nat)
deriving DecidableEq, Repr

/-- One performed sub-step: the index of the key being processed, which sub-step, and the
error it failed with (`none` when it did not fail). -/
structure StepResult where
  keyIndex : Nat
  step : SubStep
  failure : Option GoError
deriving DecidableEq, Repr

/-- The failure counted for a symlink-creation sub-step: the error of `os.Symlink`, unless
`os.IsExist` holds for it; such an error is no failure, whatever holds the access path. (The
specification, 4.4, speaks of an identical link only.) -/
def linkFailure : Option GoError → Option GoError
  | some err => if osIsExist err then none else some err
  | none => none

/-- The sub-steps of granting key `i` the gear target `p`, which stands at position `k`, and
the host state they leave (specification 4.4, gear target, with the link creation counted by
`linkFailure`). The existence check and the link creation are independent steps; the legacy
file is removed if its check succeeds. -/
def specGearStep {σ PK : Type} (h : KeyHost σ) (env : KeyEnv PK) (i : Nat) (path : String)
    (fingerprint : Fingerprint) (k : Nat) (p : GearPermission) (s : σ) : List StepResult × σ :=
  let r1 := h.Stat s (env.UnitPathFor p.Id)
  let r2 := h.Symlink r1.1 path (env.SshAccessPathFor p.Id fingerprint)
  let r3 := h.Stat r2.1 (env.AuthKeysPathFor p.Id)
  let r4 := h.Remove r3.1 (env.AuthKeysPathFor p.Id)
  (StepResult.mk i (SubStep.gearExists k) r1.2
      :: StepResult.mk i (SubStep.gearLink k) (linkFailure r2.2)
      :: (if r3.2 = none then [StepResult.mk i (SubStep.legacyRemove k) r4.2] else []),
    if r3.2 = none then r4.1 else r3.1)

/-- The gear grants of key `i`, for the gear targets from position `k` on (specification 4.5,
step 3). -/
def specGearSteps {σ PK : Type} (h : KeyHost σ) (env : KeyEnv PK) (i : Nat) (path : String)
    (fingerprint : Fingerprint) : Nat → List GearPermission → σ → List StepResult × σ
  | _, [], s => ([], s)
  | k, p :: rest, s =>
    let a := specGearStep h env i path fingerprint k p s
    let b := specGearSteps h env i path fingerprint (k + 1) rest a.2
    (a.1 ++ b.1, b.2)

/-- The sub-steps of granting key `i` the repository target `p`, which stands at position `k`
(specification 4.4, repository target, with the link creation counted by `linkFailure`). -/
def specRepositoryStep {σ PK : Type} (h : KeyHost σ) (env : KeyEnv PK) (i : Nat)
    (path : String) (fingerprint : Fingerprint) (k : Nat) (p : RepositoryPermission) (s : σ) :
    List StepResult × σ :=
  let r1 := h.Stat s (env.RepositoryPathFor p.Id)
  let r2 := h.Symlink r1.1 path (env.GitAccessPathFor p.Id fingerprint p.Write)
  ([StepResult.mk i (SubStep.repositoryExists k) r1.2,
      StepResult.mk i (SubStep.repositoryLink k) (linkFailure r2.2)], r2.1)

/-- The repository grants of key `i`, for the repository targets from position `k` on
(specification 4.5, step 4). -/
def specRepositorySteps {σ PK : Type} (h : KeyHost σ) (env : KeyEnv PK) (i : Nat)
    (path : String) (fingerprint : Fingerprint) :
    Nat → List RepositoryPermission → σ → List StepResult × σ
  | _, [], s => ([], s)
  | k, p :: rest, s =>
    let a := specRepositoryStep h env i path fingerprint k p s
    let b := specRepositorySteps h env i path fingerprint (k + 1) rest a.2
    (a.1 ++ b.1, b.2)

/-- The sub-steps of one key (specification 4.5, steps 1 to 4). -/
def specKeySteps {σ PK : Type} (h : KeyHost σ) (env : KeyEnv PK) (d : ExtendedCreateKeysData)
    (i : Nat) (key : KeyData) (s : σ) : List StepResult × σ :=
  match env.ParseAuthorizedKey key.Value with
  | none => ([StepResult.mk i SubStep.parse (some (errorsNew "Unable to parse key"))], s)
  | some pk =>
    let fingerprint := KeyFingerprint env pk
    let path := env.PublicKeyPathFor fingerprint
    let w := h.AtomicWriteToContentPath s path 0o660 (env.MarshalAuthorizedKey pk)
    match w.2 with
    | some err =>
      ([StepResult.mk i SubStep.parse none, StepResult.mk i SubStep.store (some err)], w.1)
    | none =>
      let g := specGearSteps h env i path fingerprint 0 d.Gears w.1
      let r := specRepositorySteps h env i path fingerprint 0 d.Repositories g.2
      (StepResult.mk i SubStep.parse none :: StepResult.mk i SubStep.store none :: g.1 ++ r.1,
        r.2)

/-- The sub-steps of the whole batch in processing order, for the keys from index `i` on
(specification 4.5). -/
def specSteps {σ PK : Type} (h : KeyHost σ) (env : KeyEnv PK) (d : ExtendedCreateKeysData) :
    Nat → List KeyData → σ → List StepResult × σ
  | _, [], s => ([], s)
  | i, key :: rest, s =>
    let a := specKeySteps h env d i key s
    let b := specSteps h env d (i + 1) rest a.2
    (a.1 ++ b.1, b.2)

/-- The sub-step belongs to a gear grant. -/
def SubStep.isGear : SubStep → Bool
  | SubStep.gearExists _ => true
  | SubStep.gearLink _ => true
  | SubStep.legacyRemove _ => true
  | _ => false

/-- The sub-step belongs to a repository grant. -/
def SubStep.isRepository : SubStep → Bool
  | SubStep.repositoryExists _ => true
  | SubStep.repositoryLink _ => true
  | _ => false

/-- The `{index, message}` entry of a failed sub-step, none for one that did not fail. -/
def stepEntry (e : StepResult) : Option KeyStructuredFailure :=
  e.failure.map fun err => KeyStructuredFailure.mk e.keyIndex err.Error

/-- The response the specification (4.5) asks for: failure with one entry per failed
sub-step, success when there is none. -/
def specResponse (steps : List StepResult) : Response :=
  if steps.filterMap stepEntry = [] then
    Response.Success
  else
    Response.Failure "Not all keys were completed" (steps.filterMap stepEntry)

/-! ## The calls of the job -/

/-- The call `c` made on the host state `s`. -/
def KeyHost.perform {σ : Type} (h : KeyHost σ) : Call → σ → σ × Option GoError
  | Call.write p m v, s => h.AtomicWriteToContentPath s p m v
  | Call.stat p, s => h.Stat s p
  | Call.symlink o n, s => h.Symlink s o n
  | Call.remove p, s => h.Remove s p

/-- The keys of the batch that parse, in order. -/
def parsedKeys {PK : Type} (env : KeyEnv PK) (d : ExtendedCreateKeysData) : List PK :=
  d.Keys.filterMap fun key => env.ParseAuthorizedKey key.Value

/-- The calls of the gear loop of `Execute` for the key `pk` and the gear target `g`: the
existence check, the link creation, the check of the legacy file and its removal. -/
def gearCalls {PK : Type} (env : KeyEnv PK) (pk : PK) (g : GearPermission) : List Call :=
  [Call.stat (env.UnitPathFor g.Id),
    Call.symlink (env.PublicKeyPathFor (KeyFingerprint env pk))
      (env.SshAccessPathFor g.Id (KeyFingerprint env pk)),
    Call.stat (env.AuthKeysPathFor g.Id),
    Call.remove (env.AuthKeysPathFor g.Id)]

/-- The calls of the repository loop of `Execute` for the key `pk` and the repository target
`r`: the existence check and the link creation. -/
def repositoryCalls {PK : Type} (env : KeyEnv PK) (pk : PK) (r : RepositoryPermission) :
    List Call :=
  [Call.stat (env.RepositoryPathFor r.Id),
    Call.symlink (env.PublicKeyPathFor (KeyFingerprint env pk))
      (env.GitAccessPathFor r.Id (KeyFingerprint env pk) r.Write)]

/-- The call that stores the key `pk`. -/
def storeCall {PK : Type} (env : KeyEnv PK) (pk : PK) : Call :=
  Call.write (env.PublicKeyPathFor (KeyFingerprint env pk)) 0o660 (env.MarshalAuthorizedKey pk)

/-- Every call `Execute` can make while it processes the key `pk` of the batch `d`. -/
def keyCalls {PK : Type} (env : KeyEnv PK) (d : ExtendedCreateKeysData) (pk : PK) : List Call :=
  storeCall env pk
    :: (d.Gears.flatMap (gearCalls env pk) ++ d.Repositories.flatMap (repositoryCalls env pk))

/-- Every call `Execute` can make for the batch `d`. -/
def jobCalls {PK : Type} (env : KeyEnv PK) (d : ExtendedCreateKeysData) : List Call :=
  (parsedKeys env d).flatMap (keyCalls env d)

/-- The property `P` of the host state survives every call `Execute` can make for the batch
`d`, whatever the call returns. -/
@[reducible] def Stable {σ PK : Type} (h : KeyHost σ) (env : KeyEnv PK) (d : ExtendedCreateKeysData)
    (P : σ → Prop) : Prop :=
  ∀ c ∈ jobCalls env d, ∀ s, P s → P (h.perform c s).1

/-- The result of a call is one `Execute` records no failure for: no error, or for a link
creation an error that `linkFailure` does not count. -/
def Call.good : Call → Option GoError → Prop
  | Call.symlink _ _, r => linkFailure r = none
  | _, r => r = none

instance (c : Call) (r : Option GoError) : Decidable (c.good r) := by
  cases c <;> simp only [Call.good] <;> infer_instance

/-- On the state `s` the call `c` changes nothing and `Execute` records no failure for it. -/
def settledAt {σ : Type} (h : KeyHost σ) (c : Call) (s : σ) : Prop :=
  (h.perform c s).1 = s ∧ c.good (h.perform c s).2

instance {σ : Type} [DecidableEq σ] (h : KeyHost σ) (c : Call) (s : σ) :
    Decidable (settledAt h c s) := by
  unfold settledAt
  infer_instance

/-- On the state `s` the existence check of the path `p` fails and changes nothing. -/
def absentAt {σ : Type} (h : KeyHost σ) (p : String) (s : σ) : Prop :=
  (h.Stat s p).1 = s ∧ (h.Stat s p).2 ≠ none

instance {σ : Type} [DecidableEq σ] (h : KeyHost σ) (p : String) (s : σ) :
    Decidable (absentAt h p s) := by
  unfold absentAt
  infer_instance

/-- The calls of the key `pk` that must succeed for `Execute` to report success: storing the
key and, for every target, the existence check and the link creation. -/
def checkCalls {PK : Type} (env : KeyEnv PK) (d : ExtendedCreateKeysData) (pk : PK) :
    List Call :=
  storeCall env pk
    :: (d.Gears.flatMap (fun g => (gearCalls env pk g).take 2)
      ++ d.Repositories.flatMap (repositoryCalls env pk))

/-- The legacy authorized-keys paths of the gear targets of the batch. -/
def legacyPaths {PK : Type} (env : KeyEnv PK) (d : ExtendedCreateKeysData) : List String :=
  d.Gears.map fun g => env.AuthKeysPathFor g.Id

/-- A host that answers the batch `d` steadily on the states in `Inv`, a set of states closed
under the calls of the job.  A call that must succeed and has just succeeded is settled: made
again at once, it changes nothing and succeeds again (for the write, this is the idempotence
of storing identical content).  A legacy path whose check has just failed, or which has just
been removed, is absent.  And no later call of the job unsettles a settled call or brings an
absent legacy path back. -/
structure Steady {σ PK : Type} (h : KeyHost σ) (env : KeyEnv PK) (d : ExtendedCreateKeysData)
    (Inv : σ → Prop) : Prop where
  closed : ∀ c ∈ jobCalls env d, ∀ s, Inv s → Inv (h.perform c s).1
  settle : ∀ pk ∈ parsedKeys env d, ∀ c ∈ checkCalls env d pk, ∀ s, Inv s →
    c.good (h.perform c s).2 → settledAt h c (h.perform c s).1
  keep : ∀ pk ∈ parsedKeys env d, ∀ c ∈ checkCalls env d pk, ∀ c' ∈ jobCalls env d,
    ∀ s, Inv s → settledAt h c s → settledAt h c (h.perform c' s).1
  absentAfterCheck : ∀ p ∈ legacyPaths env d, ∀ s, Inv s → (h.Stat s p).2 ≠ none →
    absentAt h p (h.Stat s p).1
  absentAfterRemove : ∀ p ∈ legacyPaths env d, ∀ s, Inv s → (h.Remove s p).2 = none →
    absentAt h p (h.Remove s p).1
  keepAbsent : ∀ p ∈ legacyPaths env d, ∀ c' ∈ jobCalls env d, ∀ s, Inv s →
    absentAt h p s → absentAt h p (h.perform c' s).1

/-- On the state `s` a pass of the gear loop for the key `pk` and the gear target `g`
changes nothing and records no failure: the existence check and the link creation are
settled and the legacy path is absent. -/
def gearSettled {σ PK : Type} (h : KeyHost σ) (env : KeyEnv PK) (pk : PK) (g : GearPermission)
    (s : σ) : Prop :=
  settledAt h (Call.stat (env.UnitPathFor g.Id)) s ∧
  settledAt h (Call.symlink (env.PublicKeyPathFor (KeyFingerprint env pk))
    (env.SshAccessPathFor g.Id (KeyFingerprint env pk))) s ∧
  absentAt h (env.AuthKeysPathFor g.Id) s

/-- On the state `s` a pass of the repository loop for the key `pk` and the repository target
`r` changes nothing and records no failure. -/
def repositorySettled {σ PK : Type} (h : KeyHost σ) (env : KeyEnv PK) (pk : PK)
    (r : RepositoryPermission) (s : σ) : Prop :=
  settledAt h (Call.stat (env.RepositoryPathFor r.Id)) s ∧
  settledAt h (Call.symlink (env.PublicKeyPathFor (KeyFingerprint env pk))
    (env.GitAccessPathFor r.Id (KeyFingerprint env pk) r.Write)) s

/-- On the state `s` processing the key `pk` for the batch `d` changes nothing and records
no failure. -/
def keySettled {σ PK : Type} (h : KeyHost σ) (env : KeyEnv PK) (d : ExtendedCreateKeysData)
    (pk : PK) (s : σ) : Prop :=
  settledAt h (storeCall env pk) s ∧ (∀ g ∈ d.Gears, gearSettled h env pk g s) ∧
    (∀ r ∈ d.Repositories, repositorySettled h env pk r s)

/-- The host state in which the gear loop checks the legacy file of the gear target `p`,
having started on `s`: the state after the existence check and the link creation. -/
def legacyCheckState {σ PK : Type} (h : KeyHost σ) (env : KeyEnv PK) (path : String)
    (fingerprint : Fingerprint) (p : GearPermission) (s : σ) : σ :=
  (h.Symlink (h.Stat s (env.UnitPathFor p.Id)).1 path
    (env.SshAccessPathFor p.Id fingerprint)).1

/-- The states of `l` and the states one call of `calls` away from them, each listed once. -/
def expand {σ : Type} [DecidableEq σ] (h : KeyHost σ) (calls : List Call) (l : List σ) :
    List σ :=
  (l.flatMap fun s => calls.map fun c => (h.perform c s).1).foldl
    (fun acc s => if s ∈ acc then acc else acc ++ [s]) l

/-- The states at most `n` calls of `calls` away from the states of `l`. -/
def reachable {σ : Type} [DecidableEq σ] (h : KeyHost σ) (calls : List Call) :
    Nat → List σ → List σ
  | 0, l => l
  | n + 1, l => reachable h calls n (expand h calls l)

/-! ## cleanup/cleanup_users.go -/

/-- Go `unicode.IsSpace`. -/
def unicodeIsSpace (c : Char) : Bool :=
  let n := c.toNat
  n = 0x20 || (0x09 ≤ n && n ≤ 0x0D) || n = 0x85 || n = 0xA0 || n = 0x1680 ||
    (0x2000 ≤ n && n ≤ 0x200A) || n = 0x2028 || n = 0x2029 || n = 0x202F || n = 0x205F ||
    n = 0x3000

/-- Go `strings.TrimSpace`. -/
def stringsTrimSpace (s : String) : String :=
  String.mk ((s.toList.dropWhile unicodeIsSpace).reverse.dropWhile unicodeIsSpace).reverse

/-- Go `strings.Split(s, sep)` for a separator of one character. -/
def stringsSplit (s : String) (sep : Char) : List String :=
  (s.toList.splitOn sep).map String.mk

/-- Go `strings.HasPrefix`. -/
def stringsHasPrefix (s pre : String) : Bool :=
  pre.toList.isPrefixOf s.toList

/-- Go `ctrUsers[k] = v` on a map held as an association list with distinct keys. -/
def mapSet (m : List (String × String)) (k v : String) : List (String × String) :=
  m.filter (fun e => e.1 ≠ k) ++ [(k, v)]

/-- The scan loop of `Clean` over the lines the scanner yields: the map `ctrUsers`. -/
def scanPasswd (identifierPrefix : String) (lines : List String) : List (String × String) :=
  lines.foldl
    (fun ctrUsers text =>
      let line := stringsTrimSpace text
      let parts := stringsSplit line ':'
      let user := parts.headD ""
      if stringsHasPrefix user identifierPrefix then mapSet ctrUsers user line else ctrUsers)
    []

/-- The pure collaborators of `Clean`: `containers.IdentifierPrefix`,
`containers.NewIdentifierFromUser` and the `UnitPathFor` method of the identifier. -/
structure CleanEnv (U : Type) where
  IdentifierPrefix : String
  NewIdentifierFromUser : U → Except GoError Identifier
  UnitPathFor : Identifier → String

/-- The host as `Clean` uses it, over a host state `σ`: the lines scanned from
`/etc/passwd` (or the error of `os.Open`), `user.Lookup`, `os.Stat`, and the command
`/usr/sbin/userdel` with its combined output. Only the last changes the host. -/
structure CleanHost (σ U : Type) where
  OpenPasswd : σ → Except GoError (List String)
  Lookup : σ → String → Except GoError U
  Stat : σ → String → Option GoError
  Userdel : σ → String → σ × Bytes × Option GoError

/-- The fields of `CleanerContext` that `Clean` reads; the two loggers are the output. -/
structure CleanerContext where
  DryRun : Bool

/-- A line written to `ctx.LogInfo` or to `ctx.LogError`. -/
inductive LogLine where
  | info (text : String)
  | error (text : String)
deriving DecidableEq, Repr

/-- Go formatting of a byte slice with the verb `%v`. -/
def fmtBytes (b : Bytes) : String :=
  "[" ++ " ".intercalate (b.map fun x => toString x.toNat) ++ "]"

/-- Body of the loop over `ctrUsers` in `Clean`; the pair is the host state and the log. -/
def cleanUser {σ U : Type} (h : CleanHost σ U) (env : CleanEnv U) (ctx : CleanerContext)
    (st : σ × List LogLine) (userName : String) : σ × List LogLine :=
  match h.Lookup st.1 userName with
  | Except.error err => (st.1, st.2 ++ [LogLine.error ("Unable to lookup user: " ++ err.Error)])
  | Except.ok hostUser =>
    match env.NewIdentifierFromUser hostUser with
    | Except.error err =>
      (st.1,
        st.2 ++ [LogLine.error ("Unable to create identifier from username: " ++ err.Error)])
    | Except.ok id =>
      let unitFilePath := env.UnitPathFor id
      if osIsNotExist (h.Stat st.1 unitFilePath) then
        if ctx.DryRun then
          (st.1, st.2 ++ [LogLine.info (userName ++ " could be removed.")])
        else
          let r := h.Userdel st.1 userName
          match r.2.2 with
          | some err =>
            (r.1,
              st.2 ++ [LogLine.info ("Removing user " ++ userName ++ "."),
                LogLine.error
                  ("Failed to remove user: " ++ fmtBytes r.2.1 ++ " " ++ err.Error)])
          | none => (r.1, st.2 ++ [LogLine.info ("Removing user " ++ userName ++ ".")])
      else
        st

/-- Go `(*UsersCleanup).Clean`. A Go map is ranged over in an unspecified order: `range`
gives the order in which the keys of `ctrUsers` are visited. -/
def UsersCleanup.Clean {σ U : Type} (h : CleanHost σ U) (env : CleanEnv U)
    (range : List String → List String) (ctx : CleanerContext) (s : σ) : σ × List LogLine :=
  match h.OpenPasswd s with
  | Except.error err =>
    (s, [LogLine.info "--- HOST USERS CLEANUP ---",
      LogLine.error ("Failed to open /etc/passwd: %v " ++ err.Error)])
  | Except.ok lines =>
    let ctrUsers := scanPasswd env.IdentifierPrefix lines
    (range (ctrUsers.map Prod.fst)).foldl (cleanUser h env ctx)
      (s, [LogLine.info "--- HOST USERS CLEANUP ---"])

/-- The user name of a line of the user database: the first field of the trimmed line. -/
def userOfLine (text : String) : String :=
  (stringsSplit (stringsTrimSpace text) ':').headD ""

/-- The container identifier derived from a user name on the host state `s`: the account is
looked up and `containers.NewIdentifierFromUser` applied; `none` when either step fails. -/
def deriveIdentifier {σ U : Type} (h : CleanHost σ U) (env : CleanEnv U) (s : σ)
    (userName : String) : Option Identifier :=
  match h.Lookup s userName with
  | Except.error _ => none
  | Except.ok hostUser =>
    match env.NewIdentifierFromUser hostUser with
    | Except.error _ => none
    | Except.ok id => some id

/-- The account is orphaned on the host state `s`: an identifier can be derived from its
name and the host reports that no unit file exists at the unit path of that identifier. -/
def isOrphan {σ U : Type} (h : CleanHost σ U) (env : CleanEnv U) (s : σ)
    (userName : String) : Bool :=
  match deriveIdentifier h env s userName with
  | none => false
  | some id => osIsNotExist (h.Stat s (env.UnitPathFor id))

/-- The texts written to `ctx.LogInfo`, in order. -/
def infoLines (log : List LogLine) : List String :=
  log.filterMap fun l =>
    match l with
    | LogLine.info text => some text
    | LogLine.error _ => none

/-- The host `h` with a journal of the user names `userdel` was invoked for. -/
def CleanHost.recording {σ U : Type} (h : CleanHost σ U) : CleanHost (σ × List String) U where
  OpenPasswd st := h.OpenPasswd st.1
  Lookup st n := h.Lookup st.1 n
  Stat st p := h.Stat st.1 p
  Userdel st n :=
    let r := h.Userdel st.1 n
    ((r.1, st.2 ++ [n]), r.2)

/-! ## A small concrete instance -/

/-- A digest for the examples: the first 32 bytes of the input, padded with zeros. -/
def exampleSum256 (b : Bytes) : Array32 :=
  ⟨(b ++ List.replicate 32 0).take 32, by simp⟩

/-- Bytes as text, for the example paths. -/
def exampleName (b : Bytes) : String :=
  String.mk (b.map fun x => Char.ofNat x.toNat)

/-- Collaborators for the examples: a key text parses when it starts with the letter k, and
the rest of the text is the key. -/
def exampleEnv : KeyEnv String where
  ParseAuthorizedKey v :=
    match v.toList with
    | 'k' :: rest => some (String.mk rest)
    | _ => none
  MarshalAuthorizedKey pk := pk.toList.map fun c => c.toNat.toUInt8
  Marshal pk := pk.toList.map fun c => c.toNat.toUInt8
  Sum256 := exampleSum256
  PublicKeyPathFor fp := "/keys/" ++ exampleName (fp.take 4)
  UnitPathFor id := "/units/" ++ id
  SshAccessPathFor id fp := "/access/ssh/" ++ id ++ "/" ++ exampleName (fp.take 4)
  AuthKeysPathFor id := "/home/" ++ id ++ "/authorized_keys"
  RepositoryPathFor id := "/git/" ++ id
  GitAccessPathFor id fp w :=
    "/access/git/" ++ (if w then "write/" else "read/") ++ id ++ "/" ++ exampleName (fp.take 4)

/-- The directories of the examples: the key store, the unit directory, the home and the ssh
access directory of gear `g1`, the repositories and the git access directories of `r1`. -/
def exampleDirs : List (String × Node) :=
  [("/keys", Node.dir), ("/units", Node.dir), ("/home", Node.dir), ("/home/g1", Node.dir),
    ("/git", Node.dir), ("/access", Node.dir), ("/access/ssh", Node.dir),
    ("/access/ssh/g1", Node.dir), ("/access/git", Node.dir), ("/access/git/read", Node.dir),
    ("/access/git/read/r1", Node.dir), ("/access/git/write", Node.dir),
    ("/access/git/write/r1", Node.dir)]

/-- A filesystem with the directories of the examples and nothing else. -/
def bareFS : MemFS := ⟨exampleDirs, []⟩

/-- A filesystem that also holds the unit file of gear `g1`, its legacy authorized-keys
file, and the repository `r1`. -/
def readyFS : MemFS :=
  ⟨exampleDirs ++ [("/units/g1", Node.file 0o644 []),
    ("/home/g1/authorized_keys", Node.file 0o644 []), ("/git/r1", Node.dir)], []⟩

/-- The filesystem `readyFS` with the ssh access path of the example key for gear `g1` held
by a regular file, not by a link to the stored key. -/
def occupiedFS : MemFS :=
  readyFS.set "/access/ssh/g1/abcd" (Node.file 0o600 [1, 2, 3])

/-- A filesystem with the key store and the legacy authorized-keys file of gear `g1`, but
neither the unit file of `g1` nor its ssh access directory. -/
def orphanFS : MemFS :=
  ⟨[("/keys", Node.dir), ("/units", Node.dir), ("/home", Node.dir), ("/home/g1", Node.dir),
    ("/home/g1/authorized_keys", Node.file 0o644 [7])], []⟩

/-- A filesystem on which the unit path of gear `g1` is a link to its legacy
authorized-keys file. -/
def linkedFS : MemFS :=
  ⟨[("/keys", Node.dir), ("/units", Node.dir), ("/home", Node.dir), ("/home/g1", Node.dir),
    ("/access", Node.dir), ("/access/ssh", Node.dir), ("/access/ssh/g1", Node.dir),
    ("/home/g1/authorized_keys", Node.file 0o644 [7]),
    ("/units/g1", Node.link "/home/g1/authorized_keys")], []⟩

/-- The filesystem `readyFS` with the git access path of the example key for the repository
`r1` held by a link to another key file. -/
def takenFS : MemFS :=
  readyFS.set "/access/git/write/r1/abcd" (Node.link "/keys/wxyz")

/-- The filesystem `bareFS` with the unit path of gear `g1` held by a link to nothing. -/
def danglingFS : MemFS :=
  bareFS.set "/units/g1" (Node.link "/nowhere")

/-- One key for one gear. -/
def gearOnlyRequest : CreateKeysRequest :=
  ⟨"u", ⟨[⟨"ssh-rsa", "kabcd"⟩], [], [⟨"g1"⟩]⟩⟩

/-- One key for two gears and one repository. -/
def twoGearRequest : CreateKeysRequest :=
  ⟨"u", ⟨[⟨"ssh-rsa", "kabcd"⟩], [⟨"r1", true⟩], [⟨"g1"⟩, ⟨"g2"⟩]⟩⟩

/-- An identifier parser for the examples: it accepts every non-empty string. -/
def exampleNewIdentifier (s : String) : Except GoError Identifier :=
  if s = "" then Except.error (errorsNew "Identifier may not be empty") else Except.ok s

/-- One key for one gear and one repository. -/
def oneKeyRequest : CreateKeysRequest :=
  ⟨"u", ⟨[⟨"ssh-rsa", "kabcd"⟩], [⟨"r1", true⟩], [⟨"g1"⟩]⟩⟩

/-- Three keys, the middle one unparseable, for one gear and one repository. -/
def threeKeyRequest : CreateKeysRequest :=
  ⟨"u", ⟨[⟨"ssh-rsa", "kabcd"⟩, ⟨"ssh-rsa", "junk"⟩, ⟨"ssh-dsa", "kwxyz"⟩],
    [⟨"r1", false⟩], [⟨"g1"⟩]⟩⟩

/-- The states the calls of `oneKeyRequest` can bring `readyFS` into. -/
def readyStates : List MemFS :=
  reachable memHost (jobCalls exampleEnv oneKeyRequest.Data) 5 [readyFS]

/-- The states the calls of `oneKeyRequest` can bring `danglingFS` into. -/
def danglingStates : List MemFS :=
  reachable memHost (jobCalls exampleEnv oneKeyRequest.Data) 4 [danglingFS]

/-- A host for the examples of `Clean`: the lines of the user database, the accounts that
can be looked up, and the unit files that exist. -/
structure ExampleOS where
  passwd : List String
  account : String → Bool
  unit : String → Bool

/-- The example host: `userdel` makes the account unknown. -/
def exampleCleanHost : CleanHost ExampleOS String where
  OpenPasswd s := Except.ok s.passwd
  Lookup s n :=
    if s.account n then Except.ok n else Except.error (errorsNew "user: unknown user")
  Stat s p := if s.unit p then none else some (errNotExist "stat" p)
  Userdel s n := ({ s with account := fun m => if m = n then false else s.account m }, [], none)

/-- The example collaborators of `Clean`: the identifier is the user name without the
five characters of the prefix. -/
def exampleCleanEnv : CleanEnv String where
  IdentifierPrefix := "gear_"
  NewIdentifierFromUser u := Except.ok (String.mk (u.toList.drop 5))
  UnitPathFor id := "/units/" ++ id

/-- Three accounts: `root`, `gear_abc` without a unit file, `gear_xyz` with one. -/
def exampleOS : ExampleOS where
  passwd := ["root:x:0:0:root:/root:/bin/bash", "gear_abc:x:1001:1001::/home/abc:/bin/sh",
    " gear_xyz:x:1002:1002::/home/xyz:/bin/sh "]
  account n := n = "root" || n = "gear_abc" || n = "gear_xyz"
  unit p := p = "/units/xyz"

/-! ## Validation: proofs -/

theorem keyCheck_eq_none_iff (k : KeyData) :
    k.Check = none ↔
      (k.Typ = "ssh-rsa" ∨ k.Typ = "ssh-dsa" ∨ k.Typ = "ssh-ecdsa") ∧ k.Value ≠ "" := by
  unfold KeyData.Check
  split_ifs with h1 h2 <;> simp_all

theorem gearCheck_eq_none_iff (N : String → Except GoError Identifier)
    (p : GearPermission) : p.Check N = none ↔ accepts N p.Id := by
  unfold GearPermission.Check accepts
  cases h : N p.Id <;> simp

theorem repositoryCheck_eq_none_iff (N : String → Except GoError Identifier)
    (p : RepositoryPermission) : p.Check N = none ↔ accepts N p.Id := by
  unfold RepositoryPermission.Check accepts
  cases h : N p.Id <;> simp

/-- C1: `ExtendedCreateKeysData.Check` returns no error exactly when every key has one of the
three algorithm tags and a non-empty value, every gear and repository target id is accepted by
the identifier parser, there is at least one key, and there is at least one target; so a batch
with zero keys, or with zero targets, always fails `Check`. -/
theorem check_ok_iff (N : String → Except GoError Identifier) :
    (∀ d : ExtendedCreateKeysData,
      d.Check N = none ↔
        (∀ k ∈ d.Keys,
          (k.Typ = "ssh-rsa" ∨ k.Typ = "ssh-dsa" ∨ k.Typ = "ssh-ecdsa") ∧ k.Value ≠ "") ∧
        (∀ g ∈ d.Gears, accepts N g.Id) ∧
        (∀ r ∈ d.Repositories, accepts N r.Id) ∧
        d.Keys ≠ [] ∧
        ¬ (d.Repositories = [] ∧ d.Gears = [])) ∧
    (∀ d : ExtendedCreateKeysData, d.Keys = [] → d.Check N ≠ none) ∧
    (∀ d : ExtendedCreateKeysData,
      d.Repositories = [] → d.Gears = [] → d.Check N ≠ none) := by
  have main : ∀ d : ExtendedCreateKeysData,
      d.Check N = none ↔
        (∀ k ∈ d.Keys,
          (k.Typ = "ssh-rsa" ∨ k.Typ = "ssh-dsa" ∨ k.Typ = "ssh-ecdsa") ∧ k.Value ≠ "") ∧
        (∀ g ∈ d.Gears, accepts N g.Id) ∧
        (∀ r ∈ d.Repositories, accepts N r.Id) ∧
        d.Keys ≠ [] ∧
        ¬ (d.Repositories = [] ∧ d.Gears = []) := by
    intro d
    have hk : d.Keys.findSome? KeyData.Check = none ↔
        ∀ k ∈ d.Keys,
          (k.Typ = "ssh-rsa" ∨ k.Typ = "ssh-dsa" ∨ k.Typ = "ssh-ecdsa") ∧ k.Value ≠ "" := by
      rw [List.findSome?_eq_none_iff]
      exact forall₂_congr fun k _ => keyCheck_eq_none_iff k
    have hg : d.Gears.findSome? (GearPermission.Check N) = none ↔
        ∀ g ∈ d.Gears, accepts N g.Id := by
      rw [List.findSome?_eq_none_iff]
      exact forall₂_congr fun g _ => gearCheck_eq_none_iff N g
    have hr : d.Repositories.findSome? (RepositoryPermission.Check N) = none ↔
        ∀ r ∈ d.Repositories, accepts N r.Id := by
      rw [List.findSome?_eq_none_iff]
      exact forall₂_congr fun r _ => repositoryCheck_eq_none_iff N r
    rw [← hk, ← hg, ← hr]
    unfold ExtendedCreateKeysData.Check
    cases h1 : d.Keys.findSome? KeyData.Check with
    | some e => simp
    | none =>
      cases h2 : d.Gears.findSome? (GearPermission.Check N) with
      | some e => simp
      | none =>
        cases h3 : d.Repositories.findSome? (RepositoryPermission.Check N) with
        | some e => simp
        | none =>
          simp only [List.length_eq_zero]
          split_ifs with h4 h5 <;> simp_all
  refine ⟨main, ?_, ?_⟩
  · intro d hd h
    exact ((main d).1 h).2.2.2.1 hd
  · intro d hr hg h
    exact ((main d).1 h).2.2.2.2 ⟨hr, hg⟩

theorem check_ok_iff_witness :
    ExtendedCreateKeysData.Check exampleNewIdentifier ⟨[], [⟨"r1", true⟩], [⟨"g1"⟩]⟩ ≠ none ∧
    ExtendedCreateKeysData.Check exampleNewIdentifier ⟨[⟨"ssh-rsa", "kabcd"⟩], [], []⟩ ≠ none ∧
    ExtendedCreateKeysData.Check exampleNewIdentifier
      ⟨[⟨"ssh-rsa", "kabcd"⟩], [⟨"r1", true⟩], [⟨"g1"⟩]⟩ = none :=
  ⟨(check_ok_iff exampleNewIdentifier).2.1 ⟨[], [⟨"r1", true⟩], [⟨"g1"⟩]⟩ rfl,
    (check_ok_iff exampleNewIdentifier).2.2 ⟨[⟨"ssh-rsa", "kabcd"⟩], [], []⟩ rfl rfl,
    by decide⟩

/-! ## Execute against the sub-steps of the specification -/

section Refinement

variable {σ PK : Type} (h : KeyHost σ) (env : KeyEnv PK)

theorem grantGear_spec (i : Nat) (key : KeyData) (path : String) (fp : Fingerprint)
    (k : Nat) (p : GearPermission) (st : σ × List KeyFailure) :
    (grantGear h env i key path fp st p).1 = (specGearStep h env i path fp k p st.1).2 ∧
      (grantGear h env i key path fp st p).2.map toStructured
        = st.2.map toStructured
          ++ (specGearStep h env i path fp k p st.1).1.filterMap stepEntry := by
  unfold grantGear specGearStep
  simp only []
  generalize h.Stat st.1 (env.UnitPathFor p.Id) = r1
  generalize h.Symlink r1.1 path (env.SshAccessPathFor p.Id fp) = r2
  generalize h.Stat r2.1 (env.AuthKeysPathFor p.Id) = r3
  generalize h.Remove r3.1 (env.AuthKeysPathFor p.Id) = r4
  obtain ⟨s1, e1⟩ := r1
  obtain ⟨s2, e2⟩ := r2
  obtain ⟨s3, e3⟩ := r3
  obtain ⟨s4, e4⟩ := r4
  cases e1 <;> cases e2 <;> cases e3 <;> cases e4 <;>
    simp [stepEntry, linkFailure, toStructured] <;>
    split_ifs <;> simp_all [stepEntry, toStructured]

theorem foldl_grantGear (i : Nat) (key : KeyData) (path : String) (fp : Fingerprint)
    (gears : List GearPermission) (k : Nat) (st : σ × List KeyFailure) :
    (gears.foldl (grantGear h env i key path fp) st).1
        = (specGearSteps h env i path fp k gears st.1).2 ∧
      (gears.foldl (grantGear h env i key path fp) st).2.map toStructured
        = st.2.map toStructured
          ++ (specGearSteps h env i path fp k gears st.1).1.filterMap stepEntry := by
  induction gears generalizing k st with
  | nil => simp [specGearSteps]
  | cons p rest ih =>
    rw [List.foldl_cons]
    obtain ⟨ih1, ih2⟩ := ih (k + 1) (grantGear h env i key path fp st p)
    obtain ⟨g1, g2⟩ := grantGear_spec h env i key path fp k p st
    rw [ih1, ih2, g1, g2]
    simp [specGearSteps]

theorem grantRepository_spec (i : Nat) (key : KeyData) (path : String) (fp : Fingerprint)
    (k : Nat) (p : RepositoryPermission) (st : σ × List KeyFailure) :
    (grantRepository h env i key path fp st p).1
        = (specRepositoryStep h env i path fp k p st.1).2 ∧
      (grantRepository h env i key path fp st p).2.map toStructured
        = st.2.map toStructured
          ++ (specRepositoryStep h env i path fp k p st.1).1.filterMap stepEntry := by
  unfold grantRepository specRepositoryStep
  simp only []
  generalize h.Stat st.1 (env.RepositoryPathFor p.Id) = r1
  generalize h.Symlink r1.1 path (env.GitAccessPathFor p.Id fp p.Write) = r2
  obtain ⟨s1, e1⟩ := r1
  obtain ⟨s2, e2⟩ := r2
  cases e1 <;> cases e2 <;>
    simp [stepEntry, linkFailure, toStructured] <;>
    split_ifs <;> simp_all [stepEntry, toStructured]

theorem foldl_grantRepository (i : Nat) (key : KeyData) (path : String) (fp : Fingerprint)
    (repos : List RepositoryPermission) (k : Nat) (st : σ × List KeyFailure) :
    (repos.foldl (grantRepository h env i key path fp) st).1
        = (specRepositorySteps h env i path fp k repos st.1).2 ∧
      (repos.foldl (grantRepository h env i key path fp) st).2.map toStructured
        = st.2.map toStructured
          ++ (specRepositorySteps h env i path fp k repos st.1).1.filterMap stepEntry := by
  induction repos generalizing k st with
  | nil => simp [specRepositorySteps]
  | cons p rest ih =>
    rw [List.foldl_cons]
    obtain ⟨ih1, ih2⟩ := ih (k + 1) (grantRepository h env i key path fp st p)
    obtain ⟨g1, g2⟩ := grantRepository_spec h env i key path fp k p st
    rw [ih1, ih2, g1, g2]
    simp [specRepositorySteps]

theorem processKey_spec (d : ExtendedCreateKeysData) (i : Nat) (key : KeyData)
    (st : σ × List KeyFailure) :
    (processKey h env d i key st).1 = (specKeySteps h env d i key st.1).2 ∧
      (processKey h env d i key st).2.map toStructured
        = st.2.map toStructured ++ (specKeySteps h env d i key st.1).1.filterMap stepEntry := by
  unfold processKey specKeySteps
  cases hp : env.ParseAuthorizedKey key.Value with
  | none => simp [stepEntry, toStructured, errorsNew]
  | some pk =>
    simp only []
    cases hw : (h.AtomicWriteToContentPath st.1 (env.PublicKeyPathFor (KeyFingerprint env pk))
        0o660 (env.MarshalAuthorizedKey pk)).2 with
    | some err => simp [stepEntry, toStructured]
    | none =>
      simp only []
      obtain ⟨g1, g2⟩ := foldl_grantGear h env i key
        (env.PublicKeyPathFor (KeyFingerprint env pk)) (KeyFingerprint env pk) d.Gears 0
        ((h.AtomicWriteToContentPath st.1 (env.PublicKeyPathFor (KeyFingerprint env pk))
          0o660 (env.MarshalAuthorizedKey pk)).1, st.2)
      obtain ⟨r1, r2⟩ := foldl_grantRepository h env i key
        (env.PublicKeyPathFor (KeyFingerprint env pk)) (KeyFingerprint env pk) d.Repositories 0
        (d.Gears.foldl (grantGear h env i key (env.PublicKeyPathFor (KeyFingerprint env pk))
          (KeyFingerprint env pk))
          ((h.AtomicWriteToContentPath st.1 (env.PublicKeyPathFor (KeyFingerprint env pk))
            0o660 (env.MarshalAuthorizedKey pk)).1, st.2))
      rw [r1, r2, g1, g2]
      simp [stepEntry]

theorem keysLoop_spec (d : ExtendedCreateKeysData) (keys : List KeyData) (i : Nat)
    (st : σ × List KeyFailure) :
    (keysLoop h env d i keys st).1 = (specSteps h env d i keys st.1).2 ∧
      (keysLoop h env d i keys st).2.map toStructured
        = st.2.map toStructured ++ (specSteps h env d i keys st.1).1.filterMap stepEntry := by
  induction keys generalizing i st with
  | nil => simp [keysLoop, specSteps]
  | cons key rest ih =>
    obtain ⟨ih1, ih2⟩ := ih (i + 1) (processKey h env d i key st)
    obtain ⟨p1, p2⟩ := processKey_spec h env d i key st
    simp only [keysLoop, specSteps]
    rw [ih1, ih2, p1, p2]
    simp

theorem specGearSteps_keyIndex (i : Nat) (path : String) (fp : Fingerprint)
    (gears : List GearPermission) (k : Nat) (s : σ) :
    ∀ e ∈ (specGearSteps h env i path fp k gears s).1, e.keyIndex = i := by
  induction gears generalizing k s with
  | nil => simp [specGearSteps]
  | cons p rest ih =>
    intro e he
    simp only [specGearSteps, List.mem_append] at he
    rcases he with he | he
    · simp only [specGearStep, List.mem_cons] at he
      rcases he with rfl | rfl | he
      · rfl
      · rfl
      · split_ifs at he
        · rw [List.mem_singleton] at he
          rw [he]
        · simp at he
    · exact ih _ _ e he

theorem specRepositorySteps_keyIndex (i : Nat) (path : String) (fp : Fingerprint)
    (repos : List RepositoryPermission) (k : Nat) (s : σ) :
    ∀ e ∈ (specRepositorySteps h env i path fp k repos s).1, e.keyIndex = i := by
  induction repos generalizing k s with
  | nil => simp [specRepositorySteps]
  | cons p rest ih =>
    intro e he
    simp only [specRepositorySteps, List.mem_append] at he
    rcases he with he | he
    · simp only [specRepositoryStep] at he
      simp at he
      rcases he with he | he <;> simp [he]
    · exact ih _ _ e he

theorem specKeySteps_keyIndex (d : ExtendedCreateKeysData) (i : Nat) (key : KeyData) (s : σ) :
    ∀ e ∈ (specKeySteps h env d i key s).1, e.keyIndex = i := by
  intro e he
  unfold specKeySteps at he
  split at he
  · simp at he
    simp [he]
  · simp only [] at he
    split at he
    · simp at he
      rcases he with he | he <;> simp [he]
    · dsimp only at he
      simp only [List.mem_cons, List.mem_append] at he
      rcases he with (he | he | he) | he
      · simp [he]
      · simp [he]
      · exact specGearSteps_keyIndex h env i _ _ _ _ _ e he
      · exact specRepositorySteps_keyIndex h env i _ _ _ _ _ e he

theorem specSteps_keyIndex (d : ExtendedCreateKeysData) (keys : List KeyData) (i : Nat) (s : σ) :
    ∀ e ∈ (specSteps h env d i keys s).1, i ≤ e.keyIndex ∧ e.keyIndex < i + keys.length := by
  induction keys generalizing i s with
  | nil => simp [specSteps]
  | cons key rest ih =>
    intro e he
    simp only [specSteps, List.mem_append] at he
    rcases he with he | he
    · have := specKeySteps_keyIndex h env d i key s e he
      simp [this]
    · have := ih (i + 1) _ e he
      simp only [List.length_cons]
      omega

theorem specSteps_sorted (d : ExtendedCreateKeysData) (keys : List KeyData) (i : Nat) (s : σ) :
    (specSteps h env d i keys s).1.Pairwise (fun a b => a.keyIndex ≤ b.keyIndex) := by
  induction keys generalizing i s with
  | nil => simp [specSteps]
  | cons key rest ih =>
    simp only [specSteps]
    rw [List.pairwise_append]
    refine ⟨?_, ih _ _, ?_⟩
    · rw [List.pairwise_iff_forall_sublist]
      intro a b hab
      have ha := specKeySteps_keyIndex h env d i key s a (hab.subset (by simp))
      have hb := specKeySteps_keyIndex h env d i key s b (hab.subset (by simp))
      omega
    · intro a ha b hb
      have h1 := specKeySteps_keyIndex h env d i key s a ha
      have h2 := specSteps_keyIndex h env d rest (i + 1) _ b hb
      omega

theorem two_le_countP {α : Type} (p : α → Bool) (l : List α) (a b : α) (ha : a ∈ l)
    (hb : b ∈ l) (hab : a ≠ b) (pa : p a = true) (pb : p b = true) : 2 ≤ l.countP p := by
  induction l with
  | nil => simp at ha
  | cons x xs ih =>
    rw [List.countP_cons]
    rcases List.mem_cons.1 ha with rfl | ha'
    · rcases List.mem_cons.1 hb with rfl | hb'
      · exact absurd rfl hab
      · have : 0 < xs.countP p := List.countP_pos_iff.2 ⟨b, hb', pb⟩
        rw [if_pos pa]; omega
    · rcases List.mem_cons.1 hb with rfl | hb'
      · have : 0 < xs.countP p := List.countP_pos_iff.2 ⟨a, ha', pa⟩
        rw [if_pos pb]; omega
      · have := ih ha' hb'
        omega

theorem execute_eq_spec (j : CreateKeysRequest) (s : σ) :
    j.Execute h env s
      = ((specSteps h env j.Data 0 j.Data.Keys s).2,
          specResponse (specSteps h env j.Data 0 j.Data.Keys s).1) := by
  obtain ⟨h1, h2⟩ := keysLoop_spec h env j.Data j.Data.Keys 0 (s, [])
  simp only [List.map_nil, List.nil_append] at h1 h2
  unfold CreateKeysRequest.Execute respond specResponse
  simp only []
  rw [h1, ← h2]
  cases hf : (keysLoop h env j.Data 0 j.Data.Keys (s, [])).2 <;> simp

end Refinement

/-- C2 (as amended): `Execute` reports success exactly when no sub-step (parse, store,
existence check, link creation, legacy-file removal) failed, a link creation counting as
failed only when `os.Symlink` returns an error for which `os.IsExist` does not hold;
otherwise it reports one structured failure whose data has one index-and-message entry per
failed sub-step, in processing order, the index being that of the key in process and the
message the text of the error.  So every reported index is an index into `Keys`, the indices
never decrease, and a key that fails a gear grant and a repository grant is reported twice
under the same index. -/
theorem execute_reports_each_failed_substep {σ PK : Type} (h : KeyHost σ) (env : KeyEnv PK)
    (j : CreateKeysRequest) (s : σ) :
    (j.Execute h env s).2 = specResponse (specSteps h env j.Data 0 j.Data.Keys s).1 ∧
    ((j.Execute h env s).2 = Response.Success ↔
      ∀ e ∈ (specSteps h env j.Data 0 j.Data.Keys s).1, e.failure = none) ∧
    ((∃ e ∈ (specSteps h env j.Data 0 j.Data.Keys s).1, e.failure ≠ none) →
      (j.Execute h env s).2 = Response.Failure "Not all keys were completed"
        ((specSteps h env j.Data 0 j.Data.Keys s).1.filterMap stepEntry)) ∧
    (∀ (i : Nat) (key : KeyData) (t : σ), ∀ e ∈ (specKeySteps h env j.Data i key t).1,
      e.keyIndex = i) ∧
    (∀ f ∈ (specSteps h env j.Data 0 j.Data.Keys s).1.filterMap stepEntry,
      f.Index < j.Data.Keys.length) ∧
    ((specSteps h env j.Data 0 j.Data.Keys s).1.filterMap stepEntry).Pairwise
      (fun a b => a.Index ≤ b.Index) ∧
    (∀ e1 ∈ (specSteps h env j.Data 0 j.Data.Keys s).1,
      ∀ e2 ∈ (specSteps h env j.Data 0 j.Data.Keys s).1,
        e1.step.isGear = true → e2.step.isRepository = true → e1.keyIndex = e2.keyIndex →
        e1.failure ≠ none → e2.failure ≠ none →
        2 ≤ ((specSteps h env j.Data 0 j.Data.Keys s).1.filterMap stepEntry).countP
          (fun f => f.Index == e1.keyIndex)) := by
  have hexec := execute_eq_spec h env j s
  have hentry : ∀ e : StepResult, stepEntry e = none ↔ e.failure = none := by
    intro e
    cases hf : e.failure <;> simp [stepEntry, hf]
  have hidx : ∀ e : StepResult, ∀ f ∈ stepEntry e, f.Index = e.keyIndex := by
    intro e f hf
    cases hfail : e.failure with
    | none => simp [stepEntry, hfail] at hf
    | some err =>
      simp [stepEntry, hfail] at hf
      simp [← hf]
  refine ⟨?_, ?_, ?_, ?_, ?_, ?_, ?_⟩
  · rw [hexec]
  · rw [hexec]
    simp only [specResponse]
    split_ifs with h0
    · simp only [true_iff]
      intro e he
      exact (hentry e).1 (List.filterMap_eq_nil_iff.1 h0 e he)
    · simp only [reduceCtorEq, false_iff]
      intro hall
      exact h0 (List.filterMap_eq_nil_iff.2 fun e he => (hentry e).2 (hall e he))
  · rintro ⟨e, he, hne⟩
    rw [hexec]
    simp only [specResponse]
    rw [if_neg]
    intro h0
    exact hne ((hentry e).1 (List.filterMap_eq_nil_iff.1 h0 e he))
  · intro i key t
    exact specKeySteps_keyIndex h env j.Data i key t
  · intro f hf
    obtain ⟨e, he, hfe⟩ := List.mem_filterMap.1 hf
    have := specSteps_keyIndex h env j.Data j.Data.Keys 0 s e he
    have := hidx e f hfe
    omega
  · refine (specSteps_sorted h env j.Data j.Data.Keys 0 s).filterMap stepEntry ?_
    intro a b hab fa hfa fb hfb
    rw [hidx a fa hfa, hidx b fb hfb]
    exact hab
  · intro e1 he1 e2 he2 hg hr hk hf1 hf2
    rw [List.countP_filterMap]
    have hne : e1 ≠ e2 := by
      rintro rfl
      cases hs : e1.step <;> simp [hs, SubStep.isGear, SubStep.isRepository] at hg hr
    have hp : ∀ e : StepResult, e.failure ≠ none → e.keyIndex = e1.keyIndex →
        (Option.map (fun f : KeyStructuredFailure => f.Index == e1.keyIndex)
          (stepEntry e)).getD false = true := by
      intro e hf hk
      cases hfail : e.failure with
      | none => exact absurd hfail hf
      | some err => simp [stepEntry, hfail, hk]
    exact two_le_countP _ _ e1 e2 he1 he2 hne (hp e1 hf1 rfl) (hp e2 hf2 hk.symm)

theorem execute_reports_each_failed_substep_witness :
    (twoGearRequest.Execute memHost exampleEnv readyFS).2
        = Response.Failure "Not all keys were completed"
            [⟨0, "stat /units/g2: no such file or directory"⟩,
              ⟨0, "symlink /keys/abcd /access/ssh/g2/abcd: no such file or directory"⟩] ∧
      (twoGearRequest.Execute memHost exampleEnv bareFS).2
        = Response.Failure "Not all keys were completed"
            [⟨0, "stat /units/g1: no such file or directory"⟩,
              ⟨0, "stat /units/g2: no such file or directory"⟩,
              ⟨0, "symlink /keys/abcd /access/ssh/g2/abcd: no such file or directory"⟩,
              ⟨0, "stat /git/r1: no such file or directory"⟩] ∧
      2 ≤ ((specSteps memHost exampleEnv twoGearRequest.Data 0 twoGearRequest.Data.Keys
              bareFS).1.filterMap stepEntry).countP (fun f => f.Index == 0) :=
  ⟨by decide, by decide,
    (execute_reports_each_failed_substep memHost exampleEnv twoGearRequest bareFS).2.2.2.2.2.2
      ⟨0, SubStep.gearExists 1, some (pathError "stat" "/units/g2" Errno.ENOENT)⟩ (by decide)
      ⟨0, SubStep.repositoryExists 0, some (pathError "stat" "/git/r1" Errno.ENOENT)⟩
      (by decide) rfl rfl rfl (by decide) (by decide)⟩

/-- C2 as stated fails: with the git access path held by a link to another key file,
`os.Symlink` fails with a file-exists error, no link to the stored key is made, and yet
`Execute` reports success with no entry for the failed link creation. -/
theorem failed_link_creation_unreported :
    (oneKeyRequest.Execute memHost.recording exampleEnv (takenFS, [])).2 = Response.Success ∧
    (Call.symlink "/keys/abcd" "/access/git/write/r1/abcd",
        some (GoError.mk "symlink /keys/abcd /access/git/write/r1/abcd: file exists"
          ErrKind.exist))
      ∈ (oneKeyRequest.Execute memHost.recording exampleEnv (takenFS, [])).1.2 ∧
    (oneKeyRequest.Execute memHost.recording exampleEnv (takenFS, [])).1.1.lookup
        "/access/git/write/r1/abcd" = some (Node.link "/keys/wxyz") := by
  decide

/-! ## The loops of Execute -/

section Loops

variable {σ PK : Type} (h : KeyHost σ) (env : KeyEnv PK)

theorem keysLoop_append (d : ExtendedCreateKeysData) (a b : List KeyData) (i : Nat)
    (st : σ × List KeyFailure) :
    keysLoop h env d i (a ++ b) st = keysLoop h env d (i + a.length) b (keysLoop h env d i a st) := by
  induction a generalizing i st with
  | nil => simp [keysLoop]
  | cons key rest ih =>
    rw [List.cons_append]
    simp only [keysLoop, List.length_cons]
    rw [ih]
    congr 1
    omega

theorem grantGear_state (i i' : Nat) (key key' : KeyData) (path : String) (fp : Fingerprint)
    (st st' : σ × List KeyFailure) (p : GearPermission) (hst : st.1 = st'.1) :
    (grantGear h env i key path fp st p).1 = (grantGear h env i' key' path fp st' p).1 := by
  unfold grantGear
  simp only [hst]
  split <;> [split; skip] <;> rfl

theorem foldl_grantGear_state (i i' : Nat) (key key' : KeyData) (path : String)
    (fp : Fingerprint) (gears : List GearPermission) (st st' : σ × List KeyFailure)
    (hst : st.1 = st'.1) :
    (gears.foldl (grantGear h env i key path fp) st).1
      = (gears.foldl (grantGear h env i' key' path fp) st').1 := by
  induction gears generalizing st st' with
  | nil => simpa using hst
  | cons p rest ih =>
    simp only [List.foldl_cons]
    exact ih _ _ (grantGear_state h env i i' key key' path fp st st' p hst)

theorem grantRepository_state (i i' : Nat) (key key' : KeyData) (path : String)
    (fp : Fingerprint) (st st' : σ × List KeyFailure) (p : RepositoryPermission)
    (hst : st.1 = st'.1) :
    (grantRepository h env i key path fp st p).1
      = (grantRepository h env i' key' path fp st' p).1 := by
  unfold grantRepository
  simp only [hst]
  split <;> [split; skip] <;> rfl

theorem foldl_grantRepository_state (i i' : Nat) (key key' : KeyData) (path : String)
    (fp : Fingerprint) (repos : List RepositoryPermission) (st st' : σ × List KeyFailure)
    (hst : st.1 = st'.1) :
    (repos.foldl (grantRepository h env i key path fp) st).1
      = (repos.foldl (grantRepository h env i' key' path fp) st').1 := by
  induction repos generalizing st st' with
  | nil => simpa using hst
  | cons p rest ih =>
    simp only [List.foldl_cons]
    exact ih _ _ (grantRepository_state h env i i' key key' path fp st st' p hst)

theorem processKey_state (d d' : ExtendedCreateKeysData) (hg : d.Gears = d'.Gears)
    (hr : d.Repositories = d'.Repositories) (i i' : Nat) (key : KeyData)
    (st st' : σ × List KeyFailure) (hst : st.1 = st'.1) :
    (processKey h env d i key st).1 = (processKey h env d' i' key st').1 := by
  unfold processKey
  cases env.ParseAuthorizedKey key.Value with
  | none => exact hst
  | some pk =>
    simp only [hst, hg, hr]
    split
    · rfl
    · apply foldl_grantRepository_state
      apply foldl_grantGear_state
      rfl

theorem keysLoop_state (d d' : ExtendedCreateKeysData) (hg : d.Gears = d'.Gears)
    (hr : d.Repositories = d'.Repositories) (keys : List KeyData) (i i' : Nat)
    (st st' : σ × List KeyFailure) (hst : st.1 = st'.1) :
    (keysLoop h env d i keys st).1 = (keysLoop h env d' i' keys st').1 := by
  induction keys generalizing i i' st st' with
  | nil => exact hst
  | cons key rest ih =>
    simp only [keysLoop]
    exact ih _ _ _ _ (processKey_state h env d d' hg hr i i' key st st' hst)

theorem processKey_unparsed (d : ExtendedCreateKeysData) (i : Nat) (key : KeyData)
    (st : σ × List KeyFailure) (hp : env.ParseAuthorizedKey key.Value = none) :
    processKey h env d i key st
      = (st.1, st.2 ++ [KeyFailure.mk i key (errorsNew "Unable to parse key")]) := by
  unfold processKey
  rw [hp]

theorem keysLoop_take_succ (d : ExtendedCreateKeysData) (keys : List KeyData) (i : Nat)
    (key : KeyData) (hk : keys[i]? = some key) (st : σ × List KeyFailure) :
    keysLoop h env d 0 (keys.take (i + 1)) st
      = processKey h env d i key (keysLoop h env d 0 (keys.take i) st) := by
  have hi : i < keys.length := by
    by_contra hcon
    rw [List.getElem?_eq_none (by omega)] at hk
    cases hk
  rw [List.take_succ, hk, keysLoop_append]
  simp [keysLoop, List.length_take, Nat.min_eq_left (Nat.le_of_lt hi)]

end Loops

/-! ## The journal of host calls -/

section Journal

variable {σ PK : Type} (h : KeyHost σ) (env : KeyEnv PK)

theorem linkAttempts_append (a b : List (Call × Option GoError)) :
    linkAttempts (a ++ b) = linkAttempts a ++ linkAttempts b := by
  simp [linkAttempts]

theorem grantGear_journal (i : Nat) (key : KeyData) (path : String) (fp : Fingerprint)
    (st : (σ × List (Call × Option GoError)) × List KeyFailure) (p : GearPermission) :
    ∃ mid, (grantGear h.recording env i key path fp st p).1.2 = st.1.2 ++ mid ∧
      linkAttempts mid = [Call.symlink path (env.SshAccessPathFor p.Id fp)] := by
  unfold grantGear
  simp only [KeyHost.recording]
  split
  · split
    · exact ⟨_, by simp only [List.append_assoc]; rfl, by simp [linkAttempts, Call.isSymlink]⟩
    · exact ⟨_, by simp only [List.append_assoc]; rfl, by simp [linkAttempts, Call.isSymlink]⟩
  · exact ⟨_, by simp only [List.append_assoc]; rfl, by simp [linkAttempts, Call.isSymlink]⟩

theorem foldl_grantGear_journal (i : Nat) (key : KeyData) (path : String) (fp : Fingerprint)
    (gears : List GearPermission) (st : (σ × List (Call × Option GoError)) × List KeyFailure) :
    ∃ mid, (gears.foldl (grantGear h.recording env i key path fp) st).1.2 = st.1.2 ++ mid ∧
      linkAttempts mid
        = gears.map fun g => Call.symlink path (env.SshAccessPathFor g.Id fp) := by
  induction gears generalizing st with
  | nil => exact ⟨[], by simp, by simp [linkAttempts]⟩
  | cons p rest ih =>
    obtain ⟨m1, h1, l1⟩ := grantGear_journal h env i key path fp st p
    obtain ⟨m2, h2, l2⟩ := ih (grantGear h.recording env i key path fp st p)
    refine ⟨m1 ++ m2, ?_, ?_⟩
    · rw [List.foldl_cons, h2, h1, List.append_assoc]
    · rw [linkAttempts_append, l1, l2]
      simp

theorem grantRepository_journal (i : Nat) (key : KeyData) (path : String) (fp : Fingerprint)
    (st : (σ × List (Call × Option GoError)) × List KeyFailure) (p : RepositoryPermission) :
    ∃ mid, (grantRepository h.recording env i key path fp st p).1.2 = st.1.2 ++ mid ∧
      linkAttempts mid = [Call.symlink path (env.GitAccessPathFor p.Id fp p.Write)] := by
  unfold grantRepository
  simp only [KeyHost.recording]
  split
  · split
    · exact ⟨_, by simp only [List.append_assoc]; rfl, by simp [linkAttempts, Call.isSymlink]⟩
    · exact ⟨_, by simp only [List.append_assoc]; rfl, by simp [linkAttempts, Call.isSymlink]⟩
  · exact ⟨_, by simp only [List.append_assoc]; rfl, by simp [linkAttempts, Call.isSymlink]⟩

theorem foldl_grantRepository_journal (i : Nat) (key : KeyData) (path : String)
    (fp : Fingerprint) (repos : List RepositoryPermission)
    (st : (σ × List (Call × Option GoError)) × List KeyFailure) :
    ∃ mid, (repos.foldl (grantRepository h.recording env i key path fp) st).1.2
        = st.1.2 ++ mid ∧
      linkAttempts mid
        = repos.map fun r => Call.symlink path (env.GitAccessPathFor r.Id fp r.Write) := by
  induction repos generalizing st with
  | nil => exact ⟨[], by simp, by simp [linkAttempts]⟩
  | cons p rest ih =>
    obtain ⟨m1, h1, l1⟩ := grantRepository_journal h env i key path fp st p
    obtain ⟨m2, h2, l2⟩ := ih (grantRepository h.recording env i key path fp st p)
    refine ⟨m1 ++ m2, ?_, ?_⟩
    · rw [List.foldl_cons, h2, h1, List.append_assoc]
    · rw [linkAttempts_append, l1, l2]
      simp

theorem processKey_journal_stored (d : ExtendedCreateKeysData) (i : Nat) (key : KeyData)
    (pk : PK) (st : (σ × List (Call × Option GoError)) × List KeyFailure)
    (hp : env.ParseAuthorizedKey key.Value = some pk)
    (hw : (h.recording.AtomicWriteToContentPath st.1
      (env.PublicKeyPathFor (KeyFingerprint env pk)) 0o660 (env.MarshalAuthorizedKey pk)).2
        = none) :
    ∃ mid, (processKey h.recording env d i key st).1.2 = st.1.2 ++ mid ∧
      linkAttempts mid
        = (d.Gears.map fun g => Call.symlink (env.PublicKeyPathFor (KeyFingerprint env pk))
              (env.SshAccessPathFor g.Id (KeyFingerprint env pk)))
          ++ d.Repositories.map fun r =>
              Call.symlink (env.PublicKeyPathFor (KeyFingerprint env pk))
                (env.GitAccessPathFor r.Id (KeyFingerprint env pk) r.Write) := by
  unfold processKey
  simp only [hp, hw]
  obtain ⟨m1, h1, l1⟩ := foldl_grantGear_journal h env i key
    (env.PublicKeyPathFor (KeyFingerprint env pk)) (KeyFingerprint env pk) d.Gears
    ((h.recording.AtomicWriteToContentPath st.1 (env.PublicKeyPathFor (KeyFingerprint env pk))
      0o660 (env.MarshalAuthorizedKey pk)).1, st.2)
  obtain ⟨m2, h2, l2⟩ := foldl_grantRepository_journal h env i key
    (env.PublicKeyPathFor (KeyFingerprint env pk)) (KeyFingerprint env pk) d.Repositories
    (d.Gears.foldl (grantGear h.recording env i key
      (env.PublicKeyPathFor (KeyFingerprint env pk)) (KeyFingerprint env pk))
      ((h.recording.AtomicWriteToContentPath st.1
        (env.PublicKeyPathFor (KeyFingerprint env pk)) 0o660
        (env.MarshalAuthorizedKey pk)).1, st.2))
  refine ⟨[(Call.write (env.PublicKeyPathFor (KeyFingerprint env pk)) 0o660
      (env.MarshalAuthorizedKey pk), none)] ++ m1 ++ m2, ?_, ?_⟩
  · rw [h2, h1]
    simp only [KeyHost.recording] at hw ⊢
    rw [hw]
    simp
  · rw [linkAttempts_append, linkAttempts_append, l1, l2]
    simp [linkAttempts, Call.isSymlink]

theorem processKey_journal (d : ExtendedCreateKeysData) (i : Nat) (key : KeyData)
    (st : (σ × List (Call × Option GoError)) × List KeyFailure) :
    ∃ mid, (processKey h.recording env d i key st).1.2 = st.1.2 ++ mid := by
  cases hp : env.ParseAuthorizedKey key.Value with
  | none =>
    rw [processKey_unparsed h.recording env d i key st hp]
    exact ⟨[], by simp⟩
  | some pk =>
    cases hw : (h.recording.AtomicWriteToContentPath st.1
      (env.PublicKeyPathFor (KeyFingerprint env pk)) 0o660 (env.MarshalAuthorizedKey pk)).2 with
    | none =>
      obtain ⟨mid, hm, _⟩ := processKey_journal_stored h env d i key pk st hp hw
      exact ⟨mid, hm⟩
    | some err =>
      unfold processKey
      simp only [hp, hw]
      exact ⟨_, rfl⟩

theorem keysLoop_journal (d : ExtendedCreateKeysData) (keys : List KeyData) (i : Nat)
    (st : (σ × List (Call × Option GoError)) × List KeyFailure) :
    ∃ post, (keysLoop h.recording env d i keys st).1.2 = st.1.2 ++ post := by
  induction keys generalizing i st with
  | nil => exact ⟨[], by simp [keysLoop]⟩
  | cons key rest ih =>
    obtain ⟨m1, h1⟩ := processKey_journal h env d i key st
    obtain ⟨m2, h2⟩ := ih (i + 1) (processKey h.recording env d i key st)
    exact ⟨m1 ++ m2, by simp only [keysLoop]; rw [h2, h1, List.append_assoc]⟩

end Journal

/-- C3: `Execute` never aborts the batch early.  For every key that parses and is stored,
the calls made while that key is processed attempt the symlink for every gear target and then
for every repository target of the batch, whatever happened to other keys and whatever the
outcome for other targets.  A key that fails to parse adds exactly one failure record at its
index and makes no host call, so removing it from the batch leaves every host call, every
result and the final host state as they were. -/
theorem execute_never_aborts {σ PK : Type} (h : KeyHost σ) (env : KeyEnv PK)
    (j : CreateKeysRequest) (s : σ × List (Call × Option GoError)) :
    (∀ (i : Nat) (key : KeyData) (pk : PK),
      j.Data.Keys[i]? = some key → env.ParseAuthorizedKey key.Value = some pk →
      (h.recording.AtomicWriteToContentPath
          (keysLoop h.recording env j.Data 0 (j.Data.Keys.take i) (s, [])).1
          (env.PublicKeyPathFor (KeyFingerprint env pk)) 0o660
          (env.MarshalAuthorizedKey pk)).2 = none →
      ∃ mid post,
        (keysLoop h.recording env j.Data 0 (j.Data.Keys.take (i + 1)) (s, [])).1.2
          = (keysLoop h.recording env j.Data 0 (j.Data.Keys.take i) (s, [])).1.2 ++ mid ∧
        (j.Execute h.recording env s).1.2
          = (keysLoop h.recording env j.Data 0 (j.Data.Keys.take (i + 1)) (s, [])).1.2
            ++ post ∧
        linkAttempts mid
          = (j.Data.Gears.map fun g =>
                Call.symlink (env.PublicKeyPathFor (KeyFingerprint env pk))
                  (env.SshAccessPathFor g.Id (KeyFingerprint env pk)))
            ++ j.Data.Repositories.map fun r =>
                Call.symlink (env.PublicKeyPathFor (KeyFingerprint env pk))
                  (env.GitAccessPathFor r.Id (KeyFingerprint env pk) r.Write)) ∧
    (∀ (i : Nat) (key : KeyData),
      j.Data.Keys[i]? = some key → env.ParseAuthorizedKey key.Value = none →
      keysLoop h.recording env j.Data 0 (j.Data.Keys.take (i + 1)) (s, [])
        = ((keysLoop h.recording env j.Data 0 (j.Data.Keys.take i) (s, [])).1,
            (keysLoop h.recording env j.Data 0 (j.Data.Keys.take i) (s, [])).2
              ++ [KeyFailure.mk i key (errorsNew "Unable to parse key")])) ∧
    (∀ (a : List KeyData) (key : KeyData) (b : List KeyData),
      j.Data.Keys = a ++ key :: b → env.ParseAuthorizedKey key.Value = none →
      (CreateKeysRequest.Execute h.recording env
          ⟨j.UserId, ⟨a ++ b, j.Data.Repositories, j.Data.Gears⟩⟩ s).1
        = (j.Execute h.recording env s).1) := by
  refine ⟨?_, ?_, ?_⟩
  · intro i key pk hk hp hw
    obtain ⟨mid, hm, hl⟩ := processKey_journal_stored h env j.Data i key pk
      (keysLoop h.recording env j.Data 0 (j.Data.Keys.take i) (s, [])) hp hw
    obtain ⟨post, hpost⟩ := keysLoop_journal h env j.Data (j.Data.Keys.drop (i + 1))
      (0 + (j.Data.Keys.take (i + 1)).length)
      (keysLoop h.recording env j.Data 0 (j.Data.Keys.take (i + 1)) (s, []))
    refine ⟨mid, post, ?_, ?_, hl⟩
    · rw [keysLoop_take_succ h.recording env j.Data j.Data.Keys i key hk, hm]
    · rw [← hpost, ← keysLoop_append, List.take_append_drop]
      rfl
  · intro i key hk hp
    rw [keysLoop_take_succ h.recording env j.Data j.Data.Keys i key hk,
      processKey_unparsed h.recording env j.Data i key _ hp]
  · intro a key b hkeys hp
    unfold CreateKeysRequest.Execute
    simp only []
    rw [hkeys, keysLoop_append, keysLoop_append]
    simp only [keysLoop]
    refine keysLoop_state h.recording env
      (ExtendedCreateKeysData.mk (a ++ b) j.Data.Repositories j.Data.Gears) j.Data rfl rfl
      b _ _ _ _ ?_
    rw [processKey_unparsed h.recording env j.Data _ key _ hp]
    exact keysLoop_state h.recording env
      (ExtendedCreateKeysData.mk (a ++ b) j.Data.Repositories j.Data.Gears) j.Data rfl rfl
      a 0 0 _ _ rfl

theorem execute_never_aborts_witness :
    (∃ mid post,
      (keysLoop memHost.recording exampleEnv threeKeyRequest.Data 0
          (threeKeyRequest.Data.Keys.take 3) ((readyFS, []), [])).1.2
        = (keysLoop memHost.recording exampleEnv threeKeyRequest.Data 0
            (threeKeyRequest.Data.Keys.take 2) ((readyFS, []), [])).1.2 ++ mid ∧
      (threeKeyRequest.Execute memHost.recording exampleEnv (readyFS, [])).1.2
        = (keysLoop memHost.recording exampleEnv threeKeyRequest.Data 0
            (threeKeyRequest.Data.Keys.take 3) ((readyFS, []), [])).1.2 ++ post ∧
      linkAttempts mid
        = [Call.symlink "/keys/wxyz" "/access/ssh/g1/wxyz"]
          ++ [Call.symlink "/keys/wxyz" "/access/git/read/r1/wxyz"]) ∧
    (CreateKeysRequest.Execute memHost.recording exampleEnv
        ⟨"u", ⟨[⟨"ssh-rsa", "kabcd"⟩] ++ [⟨"ssh-dsa", "kwxyz"⟩], [⟨"r1", false⟩], [⟨"g1"⟩]⟩⟩
        (readyFS, [])).1
      = (threeKeyRequest.Execute memHost.recording exampleEnv (readyFS, [])).1 :=
  ⟨(execute_never_aborts memHost exampleEnv threeKeyRequest (readyFS, [])).1 2
      ⟨"ssh-dsa", "kwxyz"⟩ "wxyz" (by decide) (by decide) (by decide),
    (execute_never_aborts memHost exampleEnv threeKeyRequest (readyFS, [])).2.2
      [⟨"ssh-rsa", "kabcd"⟩] ⟨"ssh-rsa", "junk"⟩ [⟨"ssh-dsa", "kwxyz"⟩] (by decide)
      (by decide)⟩

/-! ## The symlink step -/

section Mem

theorem walk_error_kind (fs : MemFS) (fuel : Nat) (cur : String) (parts : List String)
    (follow : Bool) (e : Errno) (hw : fs.walk fuel cur parts follow = Except.error e) :
    (e.kind == ErrKind.exist) = false := by
  induction fuel generalizing cur parts with
  | zero =>
    simp only [MemFS.walk, Except.error.injEq] at hw
    subst hw
    rfl
  | succ n ih =>
    cases parts with
    | nil => simp [MemFS.walk] at hw
    | cons c rest =>
      simp only [MemFS.walk] at hw
      split at hw
      · simp only [Except.error.injEq] at hw
        subst hw
        rfl
      · exact ih _ _ hw
      · split_ifs at hw
        simp only [Except.error.injEq] at hw
        subst hw
        rfl
      · split_ifs at hw
        exact ih _ _ hw

theorem locate_cases (fs : MemFS) (p : String) :
    (pathParts p = [] ∧ fs.locate p = Except.error Errno.EEXIST) ∨
    (pathParts p ≠ [] ∧ ∃ e, fs.locate p = Except.error e ∧ (e.kind == ErrKind.exist) = false) ∨
    (pathParts p ≠ [] ∧ ∃ d name, fs.locate p = Except.ok (d, name)) := by
  unfold MemFS.locate
  cases hrev : (pathParts p).reverse with
  | nil => exact Or.inl ⟨List.reverse_eq_nil_iff.1 hrev, rfl⟩
  | cons name parents =>
    have hne : pathParts p ≠ [] := by
      intro h0
      rw [h0] at hrev
      simp at hrev
    refine Or.inr ?_
    simp only []
    cases hwalk : fs.walk walkFuel "/" parents.reverse true with
    | error e => exact Or.inl ⟨hne, e, rfl, walk_error_kind fs _ _ _ _ e hwalk⟩
    | ok d =>
      simp only []
      split_ifs
      · exact Or.inr ⟨hne, d, name, rfl⟩
      · exact Or.inl ⟨hne, Errno.ENOTDIR, rfl, rfl⟩

theorem find_map_set (l : List (String × Node)) (p : String) (n : Node)
    (hl : (l.find? fun e => e.1 = p) ≠ none) :
    ((l.map fun e => if e.1 = p then (p, n) else e).find? fun e => e.1 = p) = some (p, n) := by
  induction l with
  | nil => simp at hl
  | cons a rest ih =>
    by_cases ha : a.1 = p
    · simp [List.find?, ha]
    · have hrest : (rest.find? fun e => e.1 = p) ≠ none := by
        simpa [List.find?, ha] using hl
      simp only [List.map_cons, ha, if_false, List.find?, decide_False]
      exact ih hrest

theorem lookup_set (fs : MemFS) (p : String) (n : Node) : (fs.set p n).lookup p = some n := by
  unfold MemFS.set
  split_ifs with h0
  · simp only [MemFS.lookup, Option.map_eq_none'] at h0
    simp [MemFS.lookup, List.find?_append, h0]
  · simp only [MemFS.lookup, Option.map_eq_none'] at h0
    simp [MemFS.lookup, find_map_set fs.entries p n h0]

end Mem

/-- C5 (as amended): in every gear grant and every repository grant the symlink step records
no failure exactly when `os.Symlink` returned no error or an error for which `os.IsExist`
holds, and otherwise records that error at the index of the key.  On the in-memory host this
means: no failure exactly when the new name is the root directory, or its directory
resolves and the access path already holds an entry of any kind (which is then left as it
was) or the link could be created. -/
theorem link_step_records {σ PK : Type} (h : KeyHost σ) (env : KeyEnv PK) (i : Nat)
    (key : KeyData) (path : String) (fp : Fingerprint) :
    (∀ (st : σ × List KeyFailure) (p : GearPermission),
      (grantGear h env i key path fp st p).2
        = st.2
          ++ ((h.Stat st.1 (env.UnitPathFor p.Id)).2.map (KeyFailure.mk i key)).toList
          ++ ((linkFailure (h.Symlink (h.Stat st.1 (env.UnitPathFor p.Id)).1 path
                (env.SshAccessPathFor p.Id fp)).2).map (KeyFailure.mk i key)).toList
          ++ (if (h.Stat (h.Symlink (h.Stat st.1 (env.UnitPathFor p.Id)).1 path
                  (env.SshAccessPathFor p.Id fp)).1 (env.AuthKeysPathFor p.Id)).2 = none then
                ((h.Remove (h.Stat (h.Symlink (h.Stat st.1 (env.UnitPathFor p.Id)).1 path
                  (env.SshAccessPathFor p.Id fp)).1 (env.AuthKeysPathFor p.Id)).1
                  (env.AuthKeysPathFor p.Id)).2.map (KeyFailure.mk i key)).toList
              else [])) ∧
    (∀ (st : σ × List KeyFailure) (p : RepositoryPermission),
      (grantRepository h env i key path fp st p).2
        = st.2
          ++ ((h.Stat st.1 (env.RepositoryPathFor p.Id)).2.map (KeyFailure.mk i key)).toList
          ++ ((linkFailure (h.Symlink (h.Stat st.1 (env.RepositoryPathFor p.Id)).1 path
                (env.GitAccessPathFor p.Id fp p.Write)).2).map (KeyFailure.mk i key)).toList) ∧
    (∀ err : Option GoError,
      linkFailure err = none ↔ err = none ∨ ∃ e, err = some e ∧ osIsExist e = true) ∧
    (∀ (fs : MemFS) (oldname newname : String),
      (linkFailure (memHost.Symlink fs oldname newname).2 = none ↔
        pathParts newname = [] ∨
        ∃ d name, fs.locate newname = Except.ok (d, name) ∧
          (fs.lookup (joinPath d name) ≠ none ∨ d ∉ fs.readOnly)) ∧
      (∀ d name, fs.locate newname = Except.ok (d, name) →
        fs.lookup (joinPath d name) ≠ none → (memHost.Symlink fs oldname newname).1 = fs) ∧
      (∀ d name, fs.locate newname = Except.ok (d, name) →
        fs.lookup (joinPath d name) = none → d ∉ fs.readOnly →
        (memHost.Symlink fs oldname newname).1.lookup (joinPath d name)
          = some (Node.link oldname))) := by
  refine ⟨?_, ?_, ?_, ?_⟩
  · intro st p
    unfold grantGear
    simp only []
    generalize h.Stat st.1 (env.UnitPathFor p.Id) = r1
    generalize h.Symlink r1.1 path (env.SshAccessPathFor p.Id fp) = r2
    generalize h.Stat r2.1 (env.AuthKeysPathFor p.Id) = r3
    generalize h.Remove r3.1 (env.AuthKeysPathFor p.Id) = r4
    obtain ⟨s1, e1⟩ := r1
    obtain ⟨s2, e2⟩ := r2
    obtain ⟨s3, e3⟩ := r3
    obtain ⟨s4, e4⟩ := r4
    cases e1 <;> cases e2 <;> cases e3 <;> cases e4 <;>
      simp [linkFailure] <;> split_ifs <;> simp_all
  · intro st p
    unfold grantRepository
    simp only []
    generalize h.Stat st.1 (env.RepositoryPathFor p.Id) = r1
    generalize h.Symlink r1.1 path (env.GitAccessPathFor p.Id fp p.Write) = r2
    obtain ⟨s1, e1⟩ := r1
    obtain ⟨s2, e2⟩ := r2
    cases e1 <;> cases e2 <;>
      simp [linkFailure] <;> split_ifs <;> simp_all
  · intro err
    cases err with
    | none => simp [linkFailure]
    | some e =>
      simp only [linkFailure]
      split_ifs with hx <;> simp [hx]
  · intro fs oldname newname
    rcases locate_cases fs newname with ⟨hparts, hl⟩ | ⟨hparts, e, hl, he⟩ | ⟨hparts, d, name, hl⟩
    · have hres : memHost.Symlink fs oldname newname
          = (fs, some (linkError "symlink" oldname newname Errno.EEXIST)) := by
        simp only [memHost, MemFS.Symlink, hl]
      rw [hres]
      refine ⟨⟨fun _ => Or.inl hparts, fun _ => rfl⟩, ?_, ?_⟩
      · intro d name h1
        rw [hl] at h1
        cases h1
      · intro d name h1
        rw [hl] at h1
        cases h1
    · have hres : memHost.Symlink fs oldname newname
          = (fs, some (linkError "symlink" oldname newname e)) := by
        simp only [memHost, MemFS.Symlink, hl]
      rw [hres]
      have hlf : linkFailure (some (linkError "symlink" oldname newname e)) ≠ none := by
        simp [linkFailure, osIsExist, linkError, he]
      refine ⟨⟨fun h1 => absurd h1 hlf, ?_⟩, ?_, ?_⟩
      · rintro (h1 | ⟨d, name, h1, _⟩)
        · exact absurd h1 hparts
        · rw [hl] at h1
          cases h1
      · intro d name h1
        rw [hl] at h1
        cases h1
      · intro d name h1
        rw [hl] at h1
        cases h1
    · by_cases hn : fs.lookup (joinPath d name) = none
      · by_cases hr : d ∈ fs.readOnly
        · have hres : memHost.Symlink fs oldname newname
              = (fs, some (linkError "symlink" oldname newname Errno.EACCES)) := by
            simp [memHost, MemFS.Symlink, hl, hn, hr]
          rw [hres]
          have hlf : linkFailure (some (linkError "symlink" oldname newname Errno.EACCES))
              ≠ none := by
            simp [linkFailure, osIsExist, linkError, Errno.kind]
          refine ⟨⟨fun h1 => absurd h1 hlf, ?_⟩, ?_, ?_⟩
          · rintro (h1 | ⟨d1, name1, h1, h2⟩)
            · exact absurd h1 hparts
            · rw [hl] at h1
              cases h1
              rcases h2 with h2 | h2
              · exact absurd hn h2
              · exact absurd hr h2
          · intro d1 name1 _ _
            rfl
          · intro d1 name1 h1 _ h3
            have h2 := hl.symm.trans h1
            cases h2
            exact absurd hr h3
        · have hres : memHost.Symlink fs oldname newname
              = (fs.set (joinPath d name) (Node.link oldname), none) := by
            simp [memHost, MemFS.Symlink, hl, hn, hr]
          rw [hres]
          refine ⟨⟨fun _ => Or.inr ⟨d, name, hl, Or.inr hr⟩, fun _ => rfl⟩, ?_, ?_⟩
          · intro d1 name1 h1 h2
            rw [hl] at h1
            cases h1
            exact absurd hn h2
          · intro d1 name1 h1 _ _
            rw [hl] at h1
            cases h1
            exact lookup_set fs _ _
      · have hres : memHost.Symlink fs oldname newname
            = (fs, some (linkError "symlink" oldname newname Errno.EEXIST)) := by
          simp [memHost, MemFS.Symlink, hl, hn]
        rw [hres]
        refine ⟨⟨fun _ => Or.inr ⟨d, name, hl, Or.inl hn⟩, fun _ => rfl⟩, ?_, ?_⟩
        · intro d1 name1 _ _
          rfl
        · intro d1 name1 h1 h2
          rw [hl] at h1
          cases h1
          exact absurd h2 hn

theorem link_step_records_witness :
    (memHost.Symlink occupiedFS "/keys/abcd" "/access/ssh/g1/abcd").1 = occupiedFS ∧
    (memHost.Symlink readyFS "/keys/abcd" "/access/ssh/g1/abcd").1.lookup
        (joinPath "/access/ssh/g1" "abcd") = some (Node.link "/keys/abcd") :=
  ⟨((link_step_records memHost exampleEnv 0 ⟨"ssh-rsa", "kabcd"⟩ "/keys/abcd" []).2.2.2
      occupiedFS "/keys/abcd" "/access/ssh/g1/abcd").2.1 "/access/ssh/g1" "abcd" (by decide)
      (by decide),
    ((link_step_records memHost exampleEnv 0 ⟨"ssh-rsa", "kabcd"⟩ "/keys/abcd" []).2.2.2
      readyFS "/keys/abcd" "/access/ssh/g1/abcd").2.2 "/access/ssh/g1" "abcd" (by decide)
      (by decide) (by decide)⟩

/-- C5 as stated fails: with the access path held by a regular file, which is not a link to
the stored key, `Execute` records no failure and reports success, and the file stays. -/
theorem link_over_foreign_entry_succeeds :
    (gearOnlyRequest.Execute memHost exampleEnv occupiedFS).2 = Response.Success ∧
    (gearOnlyRequest.Execute memHost exampleEnv occupiedFS).1.lookup "/access/ssh/g1/abcd"
      = some (Node.file 0o600 [1, 2, 3]) := by
  decide

/-! ## The sub-steps of one key among the others -/

section Steps

variable {PK : Type} (env : KeyEnv PK)

theorem specSteps_append {σ : Type} (h : KeyHost σ) (d : ExtendedCreateKeysData)
    (a b : List KeyData) (i : Nat) (s : σ) :
    specSteps h env d i (a ++ b) s
      = ((specSteps h env d i a s).1
            ++ (specSteps h env d (i + a.length) b (specSteps h env d i a s).2).1,
          (specSteps h env d (i + a.length) b (specSteps h env d i a s).2).2) := by
  induction a generalizing i s with
  | nil => simp [specSteps]
  | cons key rest ih =>
    rw [List.cons_append]
    simp only [specSteps, List.length_cons]
    rw [ih]
    have : i + 1 + rest.length = i + (rest.length + 1) := by omega
    simp [this]

theorem specSteps_mid {σ : Type} (h : KeyHost σ) (d : ExtendedCreateKeysData)
    (a : List KeyData) (key : KeyData) (b : List KeyData) (s : σ) :
    (specSteps h env d 0 (a ++ key :: b) s).1
        = (specSteps h env d 0 a s).1
          ++ (specKeySteps h env d a.length key (specSteps h env d 0 a s).2).1
          ++ (specSteps h env d (a.length + 1) b
              (specKeySteps h env d a.length key (specSteps h env d 0 a s).2).2).1 ∧
      (specSteps h env d 0 (a ++ key :: b) s).2
        = (specSteps h env d (a.length + 1) b
            (specKeySteps h env d a.length key (specSteps h env d 0 a s).2).2).2 := by
  rw [specSteps_append]
  simp only [specSteps, Nat.zero_add, List.append_assoc]
  exact ⟨trivial, trivial⟩

theorem specSteps_split {σ : Type} (h : KeyHost σ) (d : ExtendedCreateKeysData)
    (keys : List KeyData) (i : Nat) (key : KeyData) (hk : keys[i]? = some key) (s : σ) :
    (specSteps h env d 0 keys s).1
        = (specSteps h env d 0 (keys.take i) s).1
          ++ (specKeySteps h env d i key (specSteps h env d 0 (keys.take i) s).2).1
          ++ (specSteps h env d (i + 1) (keys.drop (i + 1))
              (specKeySteps h env d i key (specSteps h env d 0 (keys.take i) s).2).2).1 ∧
      (specSteps h env d 0 keys s).2
        = (specSteps h env d (i + 1) (keys.drop (i + 1))
            (specKeySteps h env d i key (specSteps h env d 0 (keys.take i) s).2).2).2 := by
  have hi : i < keys.length := by
    by_contra hcon
    rw [List.getElem?_eq_none (by omega)] at hk
    cases hk
  have hsplit : keys.take i ++ key :: keys.drop (i + 1) = keys := by
    have h1 : keys[i] = key := by
      rw [List.getElem?_eq_getElem hi] at hk
      exact Option.some.inj hk
    rw [← h1, ← List.drop_eq_getElem_cons hi, List.take_append_drop]
  have hlen : (keys.take i).length = i := by
    rw [List.length_take]; omega
  have hmid := specSteps_mid env h d (keys.take i) key (keys.drop (i + 1)) s
  rw [hsplit, hlen] at hmid
  exact hmid

theorem failed_step_reported {σ : Type} (h : KeyHost σ) (j : CreateKeysRequest) (s : σ)
    (e : StepResult) (err : GoError) (hf : e.failure = some err)
    (he : e ∈ (specSteps h env j.Data 0 j.Data.Keys s).1) :
    ∃ data, (j.Execute h env s).2 = Response.Failure "Not all keys were completed" data ∧
      KeyStructuredFailure.mk e.keyIndex err.Error ∈ data := by
  have hmem : KeyStructuredFailure.mk e.keyIndex err.Error
      ∈ (specSteps h env j.Data 0 j.Data.Keys s).1.filterMap stepEntry :=
    List.mem_filterMap.2 ⟨e, he, by simp [stepEntry, hf]⟩
  refine ⟨_, ?_, hmem⟩
  rw [execute_eq_spec]
  simp only [specResponse]
  rw [if_neg]
  intro h0
  rw [h0] at hmem
  simp at hmem

theorem specKeySteps_stored {σ : Type} (h : KeyHost σ) (d : ExtendedCreateKeysData) (i : Nat)
    (key : KeyData) (pk : PK) (s : σ) (hp : env.ParseAuthorizedKey key.Value = some pk)
    (hw : (h.AtomicWriteToContentPath s (env.PublicKeyPathFor (KeyFingerprint env pk)) 0o660
      (env.MarshalAuthorizedKey pk)).2 = none) :
    specKeySteps h env d i key s
      = (StepResult.mk i SubStep.parse none :: StepResult.mk i SubStep.store none
          :: (specGearSteps h env i (env.PublicKeyPathFor (KeyFingerprint env pk))
                (KeyFingerprint env pk) 0 d.Gears
                (h.AtomicWriteToContentPath s (env.PublicKeyPathFor (KeyFingerprint env pk))
                  0o660 (env.MarshalAuthorizedKey pk)).1).1
            ++ (specRepositorySteps h env i (env.PublicKeyPathFor (KeyFingerprint env pk))
                (KeyFingerprint env pk) 0 d.Repositories
                (specGearSteps h env i (env.PublicKeyPathFor (KeyFingerprint env pk))
                  (KeyFingerprint env pk) 0 d.Gears
                  (h.AtomicWriteToContentPath s (env.PublicKeyPathFor (KeyFingerprint env pk))
                    0o660 (env.MarshalAuthorizedKey pk)).1).2).1,
          (specRepositorySteps h env i (env.PublicKeyPathFor (KeyFingerprint env pk))
            (KeyFingerprint env pk) 0 d.Repositories
            (specGearSteps h env i (env.PublicKeyPathFor (KeyFingerprint env pk))
              (KeyFingerprint env pk) 0 d.Gears
              (h.AtomicWriteToContentPath s (env.PublicKeyPathFor (KeyFingerprint env pk))
                0o660 (env.MarshalAuthorizedKey pk)).1).2).2) := by
  unfold specKeySteps
  simp only [hp, hw]

theorem mem_of_getElem?_eq_some {α : Type} (l : List α) (i : Nat) (a : α)
    (h : l[i]? = some a) : a ∈ l := by
  obtain ⟨hi, rfl⟩ := List.getElem?_eq_some.1 h
  exact List.getElem_mem hi

end Steps

/-! ## The calls of the job: what survives them -/

section Calls

variable {σ PK : Type} (h : KeyHost σ) (env : KeyEnv PK)

theorem mem_parsedKeys (d : ExtendedCreateKeysData) (key : KeyData) (pk : PK)
    (hk : key ∈ d.Keys) (hp : env.ParseAuthorizedKey key.Value = some pk) :
    pk ∈ parsedKeys env d :=
  List.mem_filterMap.2 ⟨key, hk, hp⟩

theorem keyCalls_subset (d : ExtendedCreateKeysData) (pk : PK) (hpk : pk ∈ parsedKeys env d)
    (c : Call) (hc : c ∈ keyCalls env d pk) : c ∈ jobCalls env d :=
  List.mem_flatMap.2 ⟨pk, hpk, hc⟩

theorem storeCall_mem (d : ExtendedCreateKeysData) (pk : PK) (hpk : pk ∈ parsedKeys env d) :
    storeCall env pk ∈ jobCalls env d :=
  keyCalls_subset env d pk hpk _ (List.mem_cons_self _ _)

theorem gearCalls_mem (d : ExtendedCreateKeysData) (pk : PK) (hpk : pk ∈ parsedKeys env d)
    (g : GearPermission) (hg : g ∈ d.Gears) (c : Call) (hc : c ∈ gearCalls env pk g) :
    c ∈ jobCalls env d :=
  keyCalls_subset env d pk hpk _
    (List.mem_cons_of_mem _ (List.mem_append_left _ (List.mem_flatMap.2 ⟨g, hg, hc⟩)))

theorem repositoryCalls_mem (d : ExtendedCreateKeysData) (pk : PK)
    (hpk : pk ∈ parsedKeys env d) (r : RepositoryPermission) (hr : r ∈ d.Repositories)
    (c : Call) (hc : c ∈ repositoryCalls env pk r) : c ∈ jobCalls env d :=
  keyCalls_subset env d pk hpk _
    (List.mem_cons_of_mem _ (List.mem_append_right _ (List.mem_flatMap.2 ⟨r, hr, hc⟩)))

theorem specGearStep_stable (d : ExtendedCreateKeysData) (P : σ → Prop)
    (hP : Stable h env d P) (i : Nat) (pk : PK) (hpk : pk ∈ parsedKeys env d) (k : Nat)
    (g : GearPermission) (hg : g ∈ d.Gears) (s : σ) (h0 : P s) :
    P (specGearStep h env i (env.PublicKeyPathFor (KeyFingerprint env pk))
      (KeyFingerprint env pk) k g s).2 := by
  have c1 := hP (Call.stat (env.UnitPathFor g.Id))
    (gearCalls_mem env d pk hpk g hg _ (by simp [gearCalls])) s h0
  have c2 := hP (Call.symlink (env.PublicKeyPathFor (KeyFingerprint env pk))
      (env.SshAccessPathFor g.Id (KeyFingerprint env pk)))
    (gearCalls_mem env d pk hpk g hg _ (by simp [gearCalls])) _ c1
  have c3 := hP (Call.stat (env.AuthKeysPathFor g.Id))
    (gearCalls_mem env d pk hpk g hg _ (by simp [gearCalls])) _ c2
  have c4 := hP (Call.remove (env.AuthKeysPathFor g.Id))
    (gearCalls_mem env d pk hpk g hg _ (by simp [gearCalls])) _ c3
  simp only [specGearStep]
  split_ifs
  · exact c4
  · exact c3

theorem specGearSteps_stable (d : ExtendedCreateKeysData) (P : σ → Prop)
    (hP : Stable h env d P) (i : Nat) (pk : PK) (hpk : pk ∈ parsedKeys env d)
    (gs : List GearPermission) (hgs : ∀ g ∈ gs, g ∈ d.Gears) (k : Nat) (s : σ) (h0 : P s) :
    P (specGearSteps h env i (env.PublicKeyPathFor (KeyFingerprint env pk))
      (KeyFingerprint env pk) k gs s).2 := by
  induction gs generalizing k s with
  | nil => exact h0
  | cons g rest ih =>
    simp only [specGearSteps]
    exact ih (fun x hx => hgs x (List.mem_cons_of_mem _ hx)) _ _
      (specGearStep_stable h env d P hP i pk hpk k g (hgs g (List.mem_cons_self _ _)) s h0)

theorem specRepositoryStep_stable (d : ExtendedCreateKeysData) (P : σ → Prop)
    (hP : Stable h env d P) (i : Nat) (pk : PK) (hpk : pk ∈ parsedKeys env d) (k : Nat)
    (r : RepositoryPermission) (hr : r ∈ d.Repositories) (s : σ) (h0 : P s) :
    P (specRepositoryStep h env i (env.PublicKeyPathFor (KeyFingerprint env pk))
      (KeyFingerprint env pk) k r s).2 := by
  have c1 := hP (Call.stat (env.RepositoryPathFor r.Id))
    (repositoryCalls_mem env d pk hpk r hr _ (by simp [repositoryCalls])) s h0
  exact hP (Call.symlink (env.PublicKeyPathFor (KeyFingerprint env pk))
      (env.GitAccessPathFor r.Id (KeyFingerprint env pk) r.Write))
    (repositoryCalls_mem env d pk hpk r hr _ (by simp [repositoryCalls])) _ c1

theorem specRepositorySteps_stable (d : ExtendedCreateKeysData) (P : σ → Prop)
    (hP : Stable h env d P) (i : Nat) (pk : PK) (hpk : pk ∈ parsedKeys env d)
    (rs : List RepositoryPermission) (hrs : ∀ r ∈ rs, r ∈ d.Repositories) (k : Nat) (s : σ)
    (h0 : P s) :
    P (specRepositorySteps h env i (env.PublicKeyPathFor (KeyFingerprint env pk))
      (KeyFingerprint env pk) k rs s).2 := by
  induction rs generalizing k s with
  | nil => exact h0
  | cons r rest ih =>
    simp only [specRepositorySteps]
    exact ih (fun x hx => hrs x (List.mem_cons_of_mem _ hx)) _ _
      (specRepositoryStep_stable h env d P hP i pk hpk k r (hrs r (List.mem_cons_self _ _))
        s h0)

theorem specKeySteps_stable (d : ExtendedCreateKeysData) (P : σ → Prop)
    (hP : Stable h env d P) (i : Nat) (key : KeyData) (hk : key ∈ d.Keys) (s : σ)
    (h0 : P s) : P (specKeySteps h env d i key s).2 := by
  unfold specKeySteps
  cases hp : env.ParseAuthorizedKey key.Value with
  | none => exact h0
  | some pk =>
    have hpk := mem_parsedKeys env d key pk hk hp
    have hw := hP (storeCall env pk) (storeCall_mem env d pk hpk) s h0
    simp only []
    split
    · exact hw
    · exact specRepositorySteps_stable h env d P hP i pk hpk _ (fun _ hr => hr) _ _
        (specGearSteps_stable h env d P hP i pk hpk _ (fun _ hg => hg) _ _ hw)

theorem specSteps_stable (d : ExtendedCreateKeysData) (P : σ → Prop)
    (hP : Stable h env d P) (keys : List KeyData) (hkeys : ∀ key ∈ keys, key ∈ d.Keys)
    (i : Nat) (s : σ) (h0 : P s) : P (specSteps h env d i keys s).2 := by
  induction keys generalizing i s with
  | nil => exact h0
  | cons key rest ih =>
    simp only [specSteps]
    exact ih (fun x hx => hkeys x (List.mem_cons_of_mem _ hx)) _ _
      (specKeySteps_stable h env d P hP i key (hkeys key (List.mem_cons_self _ _)) s h0)


theorem gear_missing_reported (d : ExtendedCreateKeysData) (M : σ → Prop)
    (hM : Stable h env d M) (p : String) (hmiss : ∀ t, M t → (h.Stat t p).2 ≠ none) (i : Nat)
    (pk : PK) (hpk : pk ∈ parsedKeys env d) (gs : List GearPermission)
    (hgs : ∀ g ∈ gs, g ∈ d.Gears) (g0 : GearPermission) (hg0 : g0 ∈ gs)
    (hpath : env.UnitPathFor g0.Id = p) (k : Nat) (s : σ) (h0 : M s) :
    ∃ k0 t err, M t ∧ (h.Stat t p).2 = some err ∧
      StepResult.mk i (SubStep.gearExists k0) (some err)
        ∈ (specGearSteps h env i (env.PublicKeyPathFor (KeyFingerprint env pk))
            (KeyFingerprint env pk) k gs s).1 := by
  induction gs generalizing k s with
  | nil => simp at hg0
  | cons g rest ih =>
    simp only [specGearSteps, List.mem_append]
    rcases List.mem_cons.1 hg0 with rfl | hrest
    · obtain ⟨err, herr⟩ := Option.ne_none_iff_exists'.1 (hmiss s h0)
      refine ⟨k, s, err, h0, herr, Or.inl ?_⟩
      simp only [specGearStep, hpath, herr]
      exact List.mem_cons_self _ _
    · obtain ⟨k0, t, err, ht, herr, hk0⟩ :=
        ih (fun x hx => hgs x (List.mem_cons_of_mem _ hx)) hrest (k + 1) _
          (specGearStep_stable h env d _ hM i pk hpk k g (hgs g (List.mem_cons_self _ _)) s h0)
      exact ⟨k0, t, err, ht, herr, Or.inr hk0⟩

theorem repository_missing_reported (d : ExtendedCreateKeysData) (M : σ → Prop)
    (hM : Stable h env d M) (p : String) (hmiss : ∀ t, M t → (h.Stat t p).2 ≠ none) (i : Nat)
    (pk : PK) (hpk : pk ∈ parsedKeys env d) (rs : List RepositoryPermission)
    (hrs : ∀ r ∈ rs, r ∈ d.Repositories) (r0 : RepositoryPermission) (hr0 : r0 ∈ rs)
    (hpath : env.RepositoryPathFor r0.Id = p) (k : Nat) (s : σ) (h0 : M s) :
    ∃ k0 t err, M t ∧ (h.Stat t p).2 = some err ∧
      StepResult.mk i (SubStep.repositoryExists k0) (some err)
        ∈ (specRepositorySteps h env i (env.PublicKeyPathFor (KeyFingerprint env pk))
            (KeyFingerprint env pk) k rs s).1 := by
  induction rs generalizing k s with
  | nil => simp at hr0
  | cons r rest ih =>
    simp only [specRepositorySteps, List.mem_append]
    rcases List.mem_cons.1 hr0 with rfl | hrest
    · obtain ⟨err, herr⟩ := Option.ne_none_iff_exists'.1 (hmiss s h0)
      refine ⟨k, s, err, h0, herr, Or.inl ?_⟩
      simp only [specRepositoryStep, hpath, herr]
      exact List.mem_cons_self _ _
    · obtain ⟨k0, t, err, ht, herr, hk0⟩ :=
        ih (fun x hx => hrs x (List.mem_cons_of_mem _ hx)) hrest (k + 1) _
          (specRepositoryStep_stable h env d _ hM i pk hpk k r
            (hrs r (List.mem_cons_self _ _)) s h0)
      exact ⟨k0, t, err, ht, herr, Or.inr hk0⟩

end Calls

/-- C4: granting access to a missing target is reported.  A target is missing when the
existence check of its unit file or repository directory fails on the initial host state and
on every state the calls of the job can lead to (`M` is such a set of states): a path that
does not resolve, that leads through something other than a directory, or that is a link to
nothing.  Then, when key `i` parses and is stored, `Execute` reports failure, not success,
and the failure data holds an entry at index `i` with the error of that check. -/
theorem missing_target_is_reported {σ PK : Type} (h : KeyHost σ) (env : KeyEnv PK)
    (j : CreateKeysRequest) (s : σ) (i : Nat) (key : KeyData) (pk : PK)
    (hk : j.Data.Keys[i]? = some key) (hp : env.ParseAuthorizedKey key.Value = some pk)
    (hw : (h.AtomicWriteToContentPath
        (keysLoop h env j.Data 0 (j.Data.Keys.take i) (s, [])).1
        (env.PublicKeyPathFor (KeyFingerprint env pk)) 0o660
        (env.MarshalAuthorizedKey pk)).2 = none) :
    (∀ g ∈ j.Data.Gears, ∀ M : σ → Prop, Stable h env j.Data M → M s →
      (∀ t, M t → (h.Stat t (env.UnitPathFor g.Id)).2 ≠ none) →
      (j.Execute h env s).2 ≠ Response.Success ∧
      ∃ data, (j.Execute h env s).2 = Response.Failure "Not all keys were completed" data ∧
        ∃ t err, M t ∧ (h.Stat t (env.UnitPathFor g.Id)).2 = some err ∧
          KeyStructuredFailure.mk i err.Error ∈ data) ∧
    (∀ r ∈ j.Data.Repositories, ∀ M : σ → Prop, Stable h env j.Data M → M s →
      (∀ t, M t → (h.Stat t (env.RepositoryPathFor r.Id)).2 ≠ none) →
      (j.Execute h env s).2 ≠ Response.Success ∧
      ∃ data, (j.Execute h env s).2 = Response.Failure "Not all keys were completed" data ∧
        ∃ t err, M t ∧ (h.Stat t (env.RepositoryPathFor r.Id)).2 = some err ∧
          KeyStructuredFailure.mk i err.Error ∈ data) := by
  have hkey : key ∈ j.Data.Keys := mem_of_getElem?_eq_some _ _ _ hk
  have hpk := mem_parsedKeys env j.Data key pk hkey hp
  have hstate := (keysLoop_spec h env j.Data (j.Data.Keys.take i) 0 (s, [])).1
  rw [hstate] at hw
  have hsteps := (specSteps_split env h j.Data j.Data.Keys i key hk s).1
  have hks := specKeySteps_stored env h j.Data i key pk _ hp hw
  have hfinish : ∀ (e : StepResult) (err : GoError), e.keyIndex = i → e.failure = some err →
      e ∈ (specKeySteps h env j.Data i key
        (specSteps h env j.Data 0 (j.Data.Keys.take i) s).2).1 →
      (j.Execute h env s).2 ≠ Response.Success ∧
      ∃ data, (j.Execute h env s).2
          = Response.Failure "Not all keys were completed" data ∧
        KeyStructuredFailure.mk i err.Error ∈ data := by
    intro e err hidx hf he
    have hmem : e ∈ (specSteps h env j.Data 0 j.Data.Keys s).1 := by
      rw [hsteps]
      exact List.mem_append_left _ (List.mem_append_right _ he)
    obtain ⟨data, hd, hin⟩ := failed_step_reported env h j s e err hf hmem
    rw [hidx] at hin
    exact ⟨by rw [hd]; simp, data, hd, hin⟩
  have htake : ∀ x ∈ j.Data.Keys.take i, x ∈ j.Data.Keys := fun x hx => List.mem_of_mem_take hx
  refine ⟨?_, ?_⟩
  · intro g hg M hM h0 hmiss
    have h1 := specSteps_stable h env j.Data _ hM _ htake 0 s h0
    have h2 := hM (storeCall env pk) (storeCall_mem env j.Data pk hpk) _ h1
    obtain ⟨k0, t, err, ht, herr, hk0⟩ := gear_missing_reported h env j.Data M hM _ hmiss i
      pk hpk j.Data.Gears (fun _ hx => hx) g hg rfl 0 _ h2
    obtain ⟨hne, data, hd, hin⟩ :=
      hfinish (StepResult.mk i (SubStep.gearExists k0) (some err)) err rfl rfl (by
        rw [hks]
        exact List.mem_cons_of_mem _ (List.mem_cons_of_mem _ (List.mem_append_left _ hk0)))
    exact ⟨hne, data, hd, t, err, ht, herr, hin⟩
  · intro r hr M hM h0 hmiss
    have h1 := specSteps_stable h env j.Data _ hM _ htake 0 s h0
    have h2 := hM (storeCall env pk) (storeCall_mem env j.Data pk hpk) _ h1
    have h3 := specGearSteps_stable h env j.Data _ hM i pk hpk j.Data.Gears
      (fun _ hx => hx) 0 _ h2
    obtain ⟨k0, t, err, ht, herr, hk0⟩ := repository_missing_reported h env j.Data M hM _
      hmiss i pk hpk j.Data.Repositories (fun _ hx => hx) r hr rfl 0 _ h3
    obtain ⟨hne, data, hd, hin⟩ :=
      hfinish (StepResult.mk i (SubStep.repositoryExists k0) (some err)) err rfl rfl (by
        rw [hks]
        exact List.mem_cons_of_mem _ (List.mem_cons_of_mem _ (List.mem_append_right _ hk0)))
    exact ⟨hne, data, hd, t, err, ht, herr, hin⟩

theorem missing_target_is_reported_witness :
    (oneKeyRequest.Execute memHost exampleEnv danglingFS).2
      = Response.Failure "Not all keys were completed"
          [⟨0, "stat /units/g1: no such file or directory"⟩,
            ⟨0, "stat /git/r1: no such file or directory"⟩] ∧
    ((oneKeyRequest.Execute memHost exampleEnv danglingFS).2 ≠ Response.Success ∧
      ∃ data, (oneKeyRequest.Execute memHost exampleEnv danglingFS).2
          = Response.Failure "Not all keys were completed" data ∧
        ∃ t err, t ∈ danglingStates ∧
          (memHost.Stat t (exampleEnv.UnitPathFor "g1")).2 = some err ∧
          KeyStructuredFailure.mk 0 err.Error ∈ data) :=
  ⟨by decide,
    (missing_target_is_reported memHost exampleEnv oneKeyRequest danglingFS 0
      ⟨"ssh-rsa", "kabcd"⟩ "abcd" (by decide) (by decide) (by decide)).1 ⟨"g1"⟩ (by decide)
      (fun t => t ∈ danglingStates) (by decide) (by decide) (by decide)⟩

/-! ## The legacy authorized-keys file -/

theorem recording_write_journal {σ : Type} (h : KeyHost σ)
    (st : σ × List (Call × Option GoError)) (p : String) (m : Nat) (v : Bytes) :
    (h.recording.AtomicWriteToContentPath st p m v).1.2
      = st.2 ++ [(Call.write p m v, (h.recording.AtomicWriteToContentPath st p m v).2)] :=
  rfl

/-- C7 (as amended): in every pass of the gear loop `Execute` checks the legacy
authorized-keys path with `os.Stat` after the existence check and the link creation, and
calls `os.Remove` on it exactly when that check succeeds, whatever the two earlier calls
returned; a failed removal is recorded at the index of the key.  Every gear target of the
batch gets such a pass for every key that is parsed and stored.  When no key of the batch is
parsed and stored, `Execute` makes no host call besides the failed writes, so no legacy file
is touched. -/
theorem legacy_file_removed_when_found {σ PK : Type} (h : KeyHost σ) (env : KeyEnv PK)
    (j : CreateKeysRequest) (s : σ × List (Call × Option GoError)) :
    (∀ (i : Nat) (key : KeyData) (path : String) (fp : Fingerprint)
        (st : (σ × List (Call × Option GoError)) × List KeyFailure) (p : GearPermission),
      (grantGear h.recording env i key path fp st p).1.2
        = st.1.2
          ++ [(Call.stat (env.UnitPathFor p.Id), (h.Stat st.1.1 (env.UnitPathFor p.Id)).2),
              (Call.symlink path (env.SshAccessPathFor p.Id fp),
                (h.Symlink (h.Stat st.1.1 (env.UnitPathFor p.Id)).1 path
                  (env.SshAccessPathFor p.Id fp)).2),
              (Call.stat (env.AuthKeysPathFor p.Id),
                (h.Stat (legacyCheckState h env path fp p st.1.1)
                  (env.AuthKeysPathFor p.Id)).2)]
          ++ (if (h.Stat (legacyCheckState h env path fp p st.1.1)
                  (env.AuthKeysPathFor p.Id)).2 = none then
                [(Call.remove (env.AuthKeysPathFor p.Id),
                  (h.Remove (h.Stat (legacyCheckState h env path fp p st.1.1)
                    (env.AuthKeysPathFor p.Id)).1 (env.AuthKeysPathFor p.Id)).2)]
              else []) ∧
      (grantGear h.recording env i key path fp st p).1.1
        = (if (h.Stat (legacyCheckState h env path fp p st.1.1)
                (env.AuthKeysPathFor p.Id)).2 = none then
            (h.Remove (h.Stat (legacyCheckState h env path fp p st.1.1)
              (env.AuthKeysPathFor p.Id)).1 (env.AuthKeysPathFor p.Id)).1
          else
            (h.Stat (legacyCheckState h env path fp p st.1.1) (env.AuthKeysPathFor p.Id)).1) ∧
      (∀ err : GoError,
        (h.Stat (legacyCheckState h env path fp p st.1.1) (env.AuthKeysPathFor p.Id)).2
          = none →
        (h.Remove (h.Stat (legacyCheckState h env path fp p st.1.1)
          (env.AuthKeysPathFor p.Id)).1 (env.AuthKeysPathFor p.Id)).2 = some err →
        KeyFailure.mk i key err ∈ (grantGear h.recording env i key path fp st p).2)) ∧
    (∀ (i : Nat) (key : KeyData) (pk : PK),
      j.Data.Keys[i]? = some key → env.ParseAuthorizedKey key.Value = some pk →
      (h.recording.AtomicWriteToContentPath
          (keysLoop h.recording env j.Data 0 (j.Data.Keys.take i) (s, [])).1
          (env.PublicKeyPathFor (KeyFingerprint env pk)) 0o660
          (env.MarshalAuthorizedKey pk)).2 = none →
      ∀ (ga : List GearPermission) (g : GearPermission) (gb : List GearPermission),
        j.Data.Gears = ga ++ g :: gb →
        ∃ post,
          (j.Execute h.recording env s).1.2
            = (grantGear h.recording env i key (env.PublicKeyPathFor (KeyFingerprint env pk))
                (KeyFingerprint env pk)
                (ga.foldl
                  (grantGear h.recording env i key
                    (env.PublicKeyPathFor (KeyFingerprint env pk)) (KeyFingerprint env pk))
                  ((h.recording.AtomicWriteToContentPath
                      (keysLoop h.recording env j.Data 0 (j.Data.Keys.take i) (s, [])).1
                      (env.PublicKeyPathFor (KeyFingerprint env pk)) 0o660
                      (env.MarshalAuthorizedKey pk)).1,
                    (keysLoop h.recording env j.Data 0 (j.Data.Keys.take i) (s, [])).2))
                g).1.2 ++ post) ∧
    ((∀ (i : Nat) (key : KeyData) (pk : PK),
        j.Data.Keys[i]? = some key → env.ParseAuthorizedKey key.Value = some pk →
        (h.recording.AtomicWriteToContentPath
            (keysLoop h.recording env j.Data 0 (j.Data.Keys.take i) (s, [])).1
            (env.PublicKeyPathFor (KeyFingerprint env pk)) 0o660
            (env.MarshalAuthorizedKey pk)).2 ≠ none) →
      ∃ post, (j.Execute h.recording env s).1.2 = s.2 ++ post ∧
        ∀ e ∈ post, ∃ p m v err, e = (Call.write p m v, some err)) := by
  refine ⟨?_, ?_, ?_⟩
  · intro i key path fp st p
    unfold grantGear legacyCheckState
    simp only [KeyHost.recording]
    generalize h.Stat st.1.1 (env.UnitPathFor p.Id) = r1
    generalize h.Symlink r1.1 path (env.SshAccessPathFor p.Id fp) = r2
    generalize h.Stat r2.1 (env.AuthKeysPathFor p.Id) = r3
    generalize h.Remove r3.1 (env.AuthKeysPathFor p.Id) = r4
    obtain ⟨s1, e1⟩ := r1
    obtain ⟨s2, e2⟩ := r2
    obtain ⟨s3, e3⟩ := r3
    obtain ⟨s4, e4⟩ := r4
    cases e3 <;> cases e4 <;> simp
  · intro i key pk hk hp hw ga g gb hG
    have h1 := keysLoop_take_succ h.recording env j.Data j.Data.Keys i key hk (s, [])
    have h2 : processKey h.recording env j.Data i key
          (keysLoop h.recording env j.Data 0 (j.Data.Keys.take i) (s, []))
        = j.Data.Repositories.foldl
            (grantRepository h.recording env i key
              (env.PublicKeyPathFor (KeyFingerprint env pk)) (KeyFingerprint env pk))
            (gb.foldl
              (grantGear h.recording env i key
                (env.PublicKeyPathFor (KeyFingerprint env pk)) (KeyFingerprint env pk))
              (grantGear h.recording env i key
                (env.PublicKeyPathFor (KeyFingerprint env pk)) (KeyFingerprint env pk)
                (ga.foldl
                  (grantGear h.recording env i key
                    (env.PublicKeyPathFor (KeyFingerprint env pk)) (KeyFingerprint env pk))
                  ((h.recording.AtomicWriteToContentPath
                      (keysLoop h.recording env j.Data 0 (j.Data.Keys.take i) (s, [])).1
                      (env.PublicKeyPathFor (KeyFingerprint env pk)) 0o660
                      (env.MarshalAuthorizedKey pk)).1,
                    (keysLoop h.recording env j.Data 0 (j.Data.Keys.take i) (s, [])).2))
                g)) := by
      unfold processKey
      simp only [hp, hw]
      rw [hG, List.foldl_append, List.foldl_cons]
    obtain ⟨m1, hm1, _⟩ := foldl_grantGear_journal h env i key
      (env.PublicKeyPathFor (KeyFingerprint env pk)) (KeyFingerprint env pk) gb
      (grantGear h.recording env i key
        (env.PublicKeyPathFor (KeyFingerprint env pk)) (KeyFingerprint env pk)
        (ga.foldl
          (grantGear h.recording env i key
            (env.PublicKeyPathFor (KeyFingerprint env pk)) (KeyFingerprint env pk))
          ((h.recording.AtomicWriteToContentPath
              (keysLoop h.recording env j.Data 0 (j.Data.Keys.take i) (s, [])).1
              (env.PublicKeyPathFor (KeyFingerprint env pk)) 0o660
              (env.MarshalAuthorizedKey pk)).1,
            (keysLoop h.recording env j.Data 0 (j.Data.Keys.take i) (s, [])).2))
        g)
    obtain ⟨m2, hm2, _⟩ := foldl_grantRepository_journal h env i key
      (env.PublicKeyPathFor (KeyFingerprint env pk)) (KeyFingerprint env pk)
      j.Data.Repositories
      (gb.foldl
        (grantGear h.recording env i key
          (env.PublicKeyPathFor (KeyFingerprint env pk)) (KeyFingerprint env pk))
        (grantGear h.recording env i key
          (env.PublicKeyPathFor (KeyFingerprint env pk)) (KeyFingerprint env pk)
          (ga.foldl
            (grantGear h.recording env i key
              (env.PublicKeyPathFor (KeyFingerprint env pk)) (KeyFingerprint env pk))
            ((h.recording.AtomicWriteToContentPath
                (keysLoop h.recording env j.Data 0 (j.Data.Keys.take i) (s, [])).1
                (env.PublicKeyPathFor (KeyFingerprint env pk)) 0o660
                (env.MarshalAuthorizedKey pk)).1,
              (keysLoop h.recording env j.Data 0 (j.Data.Keys.take i) (s, [])).2))
          g))
    obtain ⟨post, hpost⟩ := keysLoop_journal h env j.Data (j.Data.Keys.drop (i + 1))
      (0 + (j.Data.Keys.take (i + 1)).length)
      (keysLoop h.recording env j.Data 0 (j.Data.Keys.take (i + 1)) (s, []))
    have hexec : (j.Execute h.recording env s).1.2
        = (keysLoop h.recording env j.Data (0 + (j.Data.Keys.take (i + 1)).length)
            (j.Data.Keys.drop (i + 1))
            (keysLoop h.recording env j.Data 0 (j.Data.Keys.take (i + 1)) (s, []))).1.2 := by
      rw [← keysLoop_append, List.take_append_drop]
      rfl
    refine ⟨m1 ++ m2 ++ post, ?_⟩
    rw [hexec, hpost, h1, h2, hm2, hm1]
    simp only [List.append_assoc]
  · intro hno
    have hall : ∀ n : Nat, ∃ post,
        (keysLoop h.recording env j.Data 0 (j.Data.Keys.take n) (s, [])).1.2 = s.2 ++ post ∧
          ∀ e ∈ post, ∃ p m v err, e = (Call.write p m v, some err) := by
      intro n
      induction n with
      | zero => exact ⟨[], by simp [keysLoop], by simp⟩
      | succ n ih =>
        obtain ⟨post, hj, hpost⟩ := ih
        cases hk : j.Data.Keys[n]? with
        | none =>
          rw [List.take_succ, hk]
          simp only [Option.toList, List.append_nil]
          exact ⟨post, hj, hpost⟩
        | some key =>
          rw [keysLoop_take_succ h.recording env j.Data j.Data.Keys n key hk]
          cases hp : env.ParseAuthorizedKey key.Value with
          | none =>
            rw [processKey_unparsed h.recording env j.Data n key _ hp]
            exact ⟨post, hj, hpost⟩
          | some pk =>
            obtain ⟨err, herr⟩ := Option.ne_none_iff_exists'.1 (hno n key pk hk hp)
            unfold processKey
            simp only [hp, herr]
            refine ⟨post ++ [(Call.write (env.PublicKeyPathFor (KeyFingerprint env pk)) 0o660
              (env.MarshalAuthorizedKey pk), some err)], ?_, ?_⟩
            · show (h.recording.AtomicWriteToContentPath _ _ _ _).1.2 = _
              rw [recording_write_journal, hj, herr, List.append_assoc]
            · intro e he
              rcases List.mem_append.1 he with he | he
              · exact hpost e he
              · exact ⟨_, _, _, err, List.mem_singleton.1 he⟩
    obtain ⟨post, hj, hpost⟩ := hall j.Data.Keys.length
    rw [List.take_length] at hj
    exact ⟨post, hj, hpost⟩

theorem legacy_file_removed_when_found_witness :
    (gearOnlyRequest.Execute memHost.recording exampleEnv (orphanFS, [])).1.2
      = [(Call.write "/keys/abcd" 0o660 [97, 98, 99, 100], none),
          (Call.stat "/units/g1", some (pathError "stat" "/units/g1" Errno.ENOENT)),
          (Call.symlink "/keys/abcd" "/access/ssh/g1/abcd",
            some (linkError "symlink" "/keys/abcd" "/access/ssh/g1/abcd" Errno.ENOENT)),
          (Call.stat "/home/g1/authorized_keys", none),
          (Call.remove "/home/g1/authorized_keys", none)] ∧
    ∃ post,
      (gearOnlyRequest.Execute memHost.recording exampleEnv (orphanFS, [])).1.2
        = (grantGear memHost.recording exampleEnv 0 ⟨"ssh-rsa", "kabcd"⟩
            (exampleEnv.PublicKeyPathFor (KeyFingerprint exampleEnv "abcd"))
            (KeyFingerprint exampleEnv "abcd")
            (([] : List GearPermission).foldl
              (grantGear memHost.recording exampleEnv 0 ⟨"ssh-rsa", "kabcd"⟩
                (exampleEnv.PublicKeyPathFor (KeyFingerprint exampleEnv "abcd"))
                (KeyFingerprint exampleEnv "abcd"))
              ((memHost.recording.AtomicWriteToContentPath
                  (keysLoop memHost.recording exampleEnv gearOnlyRequest.Data 0
                    (gearOnlyRequest.Data.Keys.take 0) ((orphanFS, []), [])).1
                  (exampleEnv.PublicKeyPathFor (KeyFingerprint exampleEnv "abcd")) 0o660
                  (exampleEnv.MarshalAuthorizedKey "abcd")).1,
                (keysLoop memHost.recording exampleEnv gearOnlyRequest.Data 0
                  (gearOnlyRequest.Data.Keys.take 0) ((orphanFS, []), [])).2))
            ⟨"g1"⟩).1.2 ++ post :=
  ⟨by decide,
    (legacy_file_removed_when_found memHost exampleEnv gearOnlyRequest (orphanFS, [])).2.1 0
      ⟨"ssh-rsa", "kabcd"⟩ "abcd" (by decide) (by decide) (by decide) [] ⟨"g1"⟩ []
      (by decide)⟩

/-- C7 as stated fails: with the unit file of the gear missing and the access link not
created, for want of its directory, no grant succeeds for the container, yet `Execute`
removes its legacy file. -/
theorem legacy_file_removed_without_grant :
    orphanFS.lookup "/home/g1/authorized_keys" = some (Node.file 0o644 [7]) ∧
    (gearOnlyRequest.Execute memHost exampleEnv orphanFS).2
      = Response.Failure "Not all keys were completed"
          [⟨0, "stat /units/g1: no such file or directory"⟩,
            ⟨0, "symlink /keys/abcd /access/ssh/g1/abcd: no such file or directory"⟩] ∧
    (gearOnlyRequest.Execute memHost exampleEnv orphanFS).1.lookup "/access/ssh/g1/abcd"
      = none ∧
    (gearOnlyRequest.Execute memHost exampleEnv orphanFS).1.lookup "/home/g1/authorized_keys"
      = none := by
  decide

/-! ## Granting again -/

section Regrant

variable {σ PK : Type} (h : KeyHost σ) (env : KeyEnv PK)

theorem gearChecks_mem (d : ExtendedCreateKeysData) (pk : PK) (g : GearPermission)
    (hg : g ∈ d.Gears) :
    Call.stat (env.UnitPathFor g.Id) ∈ checkCalls env d pk ∧
    Call.symlink (env.PublicKeyPathFor (KeyFingerprint env pk))
      (env.SshAccessPathFor g.Id (KeyFingerprint env pk)) ∈ checkCalls env d pk := by
  refine ⟨List.mem_cons_of_mem _ (List.mem_append_left _ (List.mem_flatMap.2 ⟨g, hg, ?_⟩)),
    List.mem_cons_of_mem _ (List.mem_append_left _ (List.mem_flatMap.2 ⟨g, hg, ?_⟩))⟩ <;>
    simp [gearCalls]

theorem repositoryChecks_mem (d : ExtendedCreateKeysData) (pk : PK) (r : RepositoryPermission)
    (hr : r ∈ d.Repositories) :
    Call.stat (env.RepositoryPathFor r.Id) ∈ checkCalls env d pk ∧
    Call.symlink (env.PublicKeyPathFor (KeyFingerprint env pk))
      (env.GitAccessPathFor r.Id (KeyFingerprint env pk) r.Write) ∈ checkCalls env d pk := by
  refine ⟨List.mem_cons_of_mem _ (List.mem_append_right _ (List.mem_flatMap.2 ⟨r, hr, ?_⟩)),
    List.mem_cons_of_mem _ (List.mem_append_right _ (List.mem_flatMap.2 ⟨r, hr, ?_⟩))⟩ <;>
    simp [repositoryCalls]

theorem legacyPaths_mem (d : ExtendedCreateKeysData) (g : GearPermission) (hg : g ∈ d.Gears) :
    env.AuthKeysPathFor g.Id ∈ legacyPaths env d :=
  List.mem_map.2 ⟨g, hg, rfl⟩

theorem steady_settled (d : ExtendedCreateKeysData) (Inv : σ → Prop)
    (hS : Steady h env d Inv) (pk : PK) (hpk : pk ∈ parsedKeys env d) (c : Call)
    (hc : c ∈ checkCalls env d pk) : Stable h env d (fun s => Inv s ∧ settledAt h c s) :=
  fun c' hc' s h0 => ⟨hS.closed c' hc' s h0.1, hS.keep pk hpk c hc c' hc' s h0.1 h0.2⟩

theorem steady_absent (d : ExtendedCreateKeysData) (Inv : σ → Prop)
    (hS : Steady h env d Inv) (p : String) (hp : p ∈ legacyPaths env d) :
    Stable h env d (fun s => Inv s ∧ absentAt h p s) :=
  fun c' hc' s h0 => ⟨hS.closed c' hc' s h0.1, hS.keepAbsent p hp c' hc' s h0.1 h0.2⟩

theorem stable_gearSettled (d : ExtendedCreateKeysData) (Inv : σ → Prop)
    (hS : Steady h env d Inv) (pk : PK) (hpk : pk ∈ parsedKeys env d) (g : GearPermission)
    (hg : g ∈ d.Gears) : Stable h env d (fun s => Inv s ∧ gearSettled h env pk g s) := by
  intro c' hc' s h0
  obtain ⟨hi, h1, h2, h3⟩ := h0
  obtain ⟨m1, m2⟩ := gearChecks_mem env d pk g hg
  exact ⟨hS.closed c' hc' s hi, hS.keep pk hpk _ m1 c' hc' s hi h1,
    hS.keep pk hpk _ m2 c' hc' s hi h2,
    hS.keepAbsent _ (legacyPaths_mem env d g hg) c' hc' s hi h3⟩

theorem stable_repositorySettled (d : ExtendedCreateKeysData) (Inv : σ → Prop)
    (hS : Steady h env d Inv) (pk : PK) (hpk : pk ∈ parsedKeys env d)
    (r : RepositoryPermission) (hr : r ∈ d.Repositories) :
    Stable h env d (fun s => Inv s ∧ repositorySettled h env pk r s) := by
  intro c' hc' s h0
  obtain ⟨hi, h1, h2⟩ := h0
  obtain ⟨m1, m2⟩ := repositoryChecks_mem env d pk r hr
  exact ⟨hS.closed c' hc' s hi, hS.keep pk hpk _ m1 c' hc' s hi h1,
    hS.keep pk hpk _ m2 c' hc' s hi h2⟩

theorem stable_keySettled (d : ExtendedCreateKeysData) (Inv : σ → Prop)
    (hS : Steady h env d Inv) (pk : PK) (hpk : pk ∈ parsedKeys env d) :
    Stable h env d (fun s => Inv s ∧ keySettled h env d pk s) := by
  intro c' hc' s h0
  obtain ⟨hi, h1, h2, h3⟩ := h0
  refine ⟨hS.closed c' hc' s hi,
    hS.keep pk hpk _ (List.mem_cons_self _ _) c' hc' s hi h1, ?_, ?_⟩
  · intro g hg
    exact (stable_gearSettled h env d Inv hS pk hpk g hg c' hc' s ⟨hi, h2 g hg⟩).2
  · intro r hr
    exact (stable_repositorySettled h env d Inv hS pk hpk r hr c' hc' s ⟨hi, h3 r hr⟩).2

theorem specGearStep_settled (pk : PK) (i k : Nat) (g : GearPermission) (s : σ)
    (hs : gearSettled h env pk g s) :
    specGearStep h env i (env.PublicKeyPathFor (KeyFingerprint env pk))
        (KeyFingerprint env pk) k g s
      = ([StepResult.mk i (SubStep.gearExists k) none,
          StepResult.mk i (SubStep.gearLink k) none], s) := by
  obtain ⟨⟨a1, a2⟩, ⟨b1, b2⟩, ⟨c1, c2⟩⟩ := hs
  simp only [KeyHost.perform, Call.good] at a1 a2 b1 b2
  unfold specGearStep
  simp only []
  rw [a1, b1, c1, a2, b2, if_neg c2, if_neg c2]

theorem specGearSteps_settled (pk : PK) (i : Nat) (gs : List GearPermission) (k : Nat)
    (s : σ) (hs : ∀ g ∈ gs, gearSettled h env pk g s) :
    (specGearSteps h env i (env.PublicKeyPathFor (KeyFingerprint env pk))
        (KeyFingerprint env pk) k gs s).2 = s ∧
      ∀ e ∈ (specGearSteps h env i (env.PublicKeyPathFor (KeyFingerprint env pk))
        (KeyFingerprint env pk) k gs s).1, e.failure = none := by
  induction gs generalizing k with
  | nil => simp [specGearSteps]
  | cons g rest ih =>
    simp only [specGearSteps,
      specGearStep_settled h env pk i k g s (hs g (List.mem_cons_self _ _))]
    obtain ⟨h1, h2⟩ := ih (k + 1) (fun x hx => hs x (List.mem_cons_of_mem _ hx))
    refine ⟨h1, ?_⟩
    intro e he
    simp only [List.mem_append, List.mem_cons, List.mem_singleton, List.not_mem_nil,
      or_false] at he
    rcases he with (rfl | rfl) | he
    · rfl
    · rfl
    · exact h2 e he

theorem specRepositoryStep_settled (pk : PK) (i k : Nat) (r : RepositoryPermission) (s : σ)
    (hs : repositorySettled h env pk r s) :
    specRepositoryStep h env i (env.PublicKeyPathFor (KeyFingerprint env pk))
        (KeyFingerprint env pk) k r s
      = ([StepResult.mk i (SubStep.repositoryExists k) none,
          StepResult.mk i (SubStep.repositoryLink k) none], s) := by
  obtain ⟨⟨a1, a2⟩, ⟨b1, b2⟩⟩ := hs
  simp only [KeyHost.perform, Call.good] at a1 a2 b1 b2
  unfold specRepositoryStep
  simp only []
  rw [a1, b1, a2, b2]

theorem specRepositorySteps_settled (pk : PK) (i : Nat) (rs : List RepositoryPermission)
    (k : Nat) (s : σ) (hs : ∀ r ∈ rs, repositorySettled h env pk r s) :
    (specRepositorySteps h env i (env.PublicKeyPathFor (KeyFingerprint env pk))
        (KeyFingerprint env pk) k rs s).2 = s ∧
      ∀ e ∈ (specRepositorySteps h env i (env.PublicKeyPathFor (KeyFingerprint env pk))
        (KeyFingerprint env pk) k rs s).1, e.failure = none := by
  induction rs generalizing k with
  | nil => simp [specRepositorySteps]
  | cons r rest ih =>
    simp only [specRepositorySteps,
      specRepositoryStep_settled h env pk i k r s (hs r (List.mem_cons_self _ _))]
    obtain ⟨h1, h2⟩ := ih (k + 1) (fun x hx => hs x (List.mem_cons_of_mem _ hx))
    refine ⟨h1, ?_⟩
    intro e he
    simp only [List.mem_append, List.mem_cons, List.mem_singleton, List.not_mem_nil,
      or_false] at he
    rcases he with (rfl | rfl) | he
    · rfl
    · rfl
    · exact h2 e he

theorem specKeySteps_settled (d : ExtendedCreateKeysData) (i : Nat) (key : KeyData) (pk : PK)
    (hp : env.ParseAuthorizedKey key.Value = some pk) (s : σ)
    (hs : keySettled h env d pk s) :
    (specKeySteps h env d i key s).2 = s ∧
      ∀ e ∈ (specKeySteps h env d i key s).1, e.failure = none := by
  obtain ⟨⟨w1, w2⟩, hg, hr⟩ := hs
  simp only [KeyHost.perform, storeCall, Call.good] at w1 w2
  rw [specKeySteps_stored env h d i key pk s hp w2, w1]
  obtain ⟨g1, g2⟩ := specGearSteps_settled h env pk i d.Gears 0 s hg
  simp only [g1]
  obtain ⟨r1, r2⟩ := specRepositorySteps_settled h env pk i d.Repositories 0 s hr
  refine ⟨r1, ?_⟩
  intro e he
  simp only [List.mem_append, List.mem_cons] at he
  rcases he with (rfl | rfl | he) | he
  · rfl
  · rfl
  · exact g2 e he
  · exact r2 e he

theorem specSteps_settled (d : ExtendedCreateKeysData) (keys : List KeyData) (s : σ)
    (hs : ∀ key ∈ keys, ∃ pk, env.ParseAuthorizedKey key.Value = some pk ∧
      keySettled h env d pk s) (i : Nat) :
    (specSteps h env d i keys s).2 = s ∧
      ∀ e ∈ (specSteps h env d i keys s).1, e.failure = none := by
  induction keys generalizing i with
  | nil => simp [specSteps]
  | cons key rest ih =>
    obtain ⟨pk, hp, hset⟩ := hs key (List.mem_cons_self _ _)
    obtain ⟨k1, k2⟩ := specKeySteps_settled h env d i key pk hp s hset
    obtain ⟨h1, h2⟩ := ih (fun x hx => hs x (List.mem_cons_of_mem _ hx)) (i + 1)
    simp only [specSteps, k1]
    refine ⟨h1, ?_⟩
    intro e he
    rcases List.mem_append.1 he with he | he
    · exact k2 e he
    · exact h2 e he

theorem specGearStep_ok (i : Nat) (path : String) (fp : Fingerprint) (k : Nat)
    (g : GearPermission) (s : σ)
    (hok : ∀ e ∈ (specGearStep h env i path fp k g s).1, e.failure = none) :
    (h.Stat s (env.UnitPathFor g.Id)).2 = none ∧
    linkFailure (h.Symlink (h.Stat s (env.UnitPathFor g.Id)).1 path
      (env.SshAccessPathFor g.Id fp)).2 = none ∧
    ((h.Stat (h.Symlink (h.Stat s (env.UnitPathFor g.Id)).1 path
        (env.SshAccessPathFor g.Id fp)).1 (env.AuthKeysPathFor g.Id)).2 = none →
      (h.Remove (h.Stat (h.Symlink (h.Stat s (env.UnitPathFor g.Id)).1 path
        (env.SshAccessPathFor g.Id fp)).1 (env.AuthKeysPathFor g.Id)).1
        (env.AuthKeysPathFor g.Id)).2 = none) := by
  refine ⟨?_, ?_, ?_⟩
  · exact hok (StepResult.mk i (SubStep.gearExists k) _) (by simp [specGearStep])
  · exact hok (StepResult.mk i (SubStep.gearLink k)
      (linkFailure (h.Symlink (h.Stat s (env.UnitPathFor g.Id)).1 path
        (env.SshAccessPathFor g.Id fp)).2)) (by simp [specGearStep])
  · intro h3
    exact hok (StepResult.mk i (SubStep.legacyRemove k) _) (by simp [specGearStep, h3])

theorem specGearStep_establish (d : ExtendedCreateKeysData) (Inv : σ → Prop)
    (hS : Steady h env d Inv) (i : Nat) (pk : PK) (hpk : pk ∈ parsedKeys env d) (k : Nat)
    (g : GearPermission) (hg : g ∈ d.Gears) (s : σ) (hi : Inv s)
    (hok : ∀ e ∈ (specGearStep h env i (env.PublicKeyPathFor (KeyFingerprint env pk))
      (KeyFingerprint env pk) k g s).1, e.failure = none) :
    Inv (specGearStep h env i (env.PublicKeyPathFor (KeyFingerprint env pk))
        (KeyFingerprint env pk) k g s).2 ∧
      gearSettled h env pk g (specGearStep h env i
        (env.PublicKeyPathFor (KeyFingerprint env pk)) (KeyFingerprint env pk) k g s).2 := by
  obtain ⟨o1, o2, o3⟩ := specGearStep_ok h env i _ _ k g s hok
  obtain ⟨m1, m2⟩ := gearChecks_mem env d pk g hg
  have j1 := gearCalls_mem env d pk hpk g hg (Call.stat (env.UnitPathFor g.Id))
    (by simp [gearCalls])
  have j2 := gearCalls_mem env d pk hpk g hg
    (Call.symlink (env.PublicKeyPathFor (KeyFingerprint env pk))
      (env.SshAccessPathFor g.Id (KeyFingerprint env pk))) (by simp [gearCalls])
  have j3 := gearCalls_mem env d pk hpk g hg (Call.stat (env.AuthKeysPathFor g.Id))
    (by simp [gearCalls])
  have j4 := gearCalls_mem env d pk hpk g hg (Call.remove (env.AuthKeysPathFor g.Id))
    (by simp [gearCalls])
  have hl := legacyPaths_mem env d g hg
  -- the existence check
  have i1 : Inv (h.Stat s (env.UnitPathFor g.Id)).1 := hS.closed _ j1 s hi
  have a1 : settledAt h (Call.stat (env.UnitPathFor g.Id)) (h.Stat s (env.UnitPathFor g.Id)).1 :=
    hS.settle pk hpk _ m1 s hi o1
  -- the link creation
  have i2 := hS.closed _ j2 _ i1
  have a2 := hS.keep pk hpk _ m1 _ j2 _ i1 a1
  have b2 := hS.settle pk hpk _ m2 _ i1 o2
  -- the check of the legacy path
  have i3 := hS.closed _ j3 _ i2
  have a3 := hS.keep pk hpk _ m1 _ j3 _ i2 a2
  have b3 := hS.keep pk hpk _ m2 _ j3 _ i2 b2
  simp only [KeyHost.perform] at i1 a1 i2 a2 b2 i3 a3 b3
  simp only [specGearStep]
  split_ifs with h3
  · have i4 := hS.closed _ j4 _ i3
    have a4 := hS.keep pk hpk _ m1 _ j4 _ i3 a3
    have b4 := hS.keep pk hpk _ m2 _ j4 _ i3 b3
    have c4 := hS.absentAfterRemove _ hl _ i3 (o3 h3)
    exact ⟨i4, a4, b4, c4⟩
  · exact ⟨i3, a3, b3, hS.absentAfterCheck _ hl _ i2 h3⟩

theorem specGearSteps_establish (d : ExtendedCreateKeysData) (Inv : σ → Prop)
    (hS : Steady h env d Inv) (i : Nat) (pk : PK) (hpk : pk ∈ parsedKeys env d)
    (gs : List GearPermission) (hgs : ∀ g ∈ gs, g ∈ d.Gears) (k : Nat) (s : σ) (hi : Inv s)
    (hok : ∀ e ∈ (specGearSteps h env i (env.PublicKeyPathFor (KeyFingerprint env pk))
      (KeyFingerprint env pk) k gs s).1, e.failure = none) :
    Inv (specGearSteps h env i (env.PublicKeyPathFor (KeyFingerprint env pk))
        (KeyFingerprint env pk) k gs s).2 ∧
      ∀ g ∈ gs, gearSettled h env pk g (specGearSteps h env i
        (env.PublicKeyPathFor (KeyFingerprint env pk)) (KeyFingerprint env pk) k gs s).2 := by
  induction gs generalizing k s with
  | nil => exact ⟨hi, by simp⟩
  | cons g rest ih =>
    have hrest : ∀ x ∈ rest, x ∈ d.Gears := fun x hx => hgs x (List.mem_cons_of_mem _ hx)
    have hg : g ∈ d.Gears := hgs g (List.mem_cons_self _ _)
    simp only [specGearSteps] at hok ⊢
    obtain ⟨hi1, hhead⟩ := specGearStep_establish h env d Inv hS i pk hpk k g hg s hi
      (fun e he => hok e (List.mem_append_left _ he))
    obtain ⟨hi2, htail⟩ := ih hrest (k + 1) _ hi1
      (fun e he => hok e (List.mem_append_right _ he))
    refine ⟨hi2, ?_⟩
    intro x hx
    rcases List.mem_cons.1 hx with rfl | hx
    · exact (specGearSteps_stable h env d _ (stable_gearSettled h env d Inv hS pk hpk x hg) i
        pk hpk rest hrest _ _ ⟨hi1, hhead⟩).2
    · exact htail x hx

theorem specRepositoryStep_establish (d : ExtendedCreateKeysData) (Inv : σ → Prop)
    (hS : Steady h env d Inv) (i : Nat) (pk : PK) (hpk : pk ∈ parsedKeys env d) (k : Nat)
    (r : RepositoryPermission) (hr : r ∈ d.Repositories) (s : σ) (hi : Inv s)
    (hok : ∀ e ∈ (specRepositoryStep h env i (env.PublicKeyPathFor (KeyFingerprint env pk))
      (KeyFingerprint env pk) k r s).1, e.failure = none) :
    Inv (specRepositoryStep h env i (env.PublicKeyPathFor (KeyFingerprint env pk))
        (KeyFingerprint env pk) k r s).2 ∧
      repositorySettled h env pk r (specRepositoryStep h env i
        (env.PublicKeyPathFor (KeyFingerprint env pk)) (KeyFingerprint env pk) k r s).2 := by
  have o1 : (h.Stat s (env.RepositoryPathFor r.Id)).2 = none :=
    hok (StepResult.mk i (SubStep.repositoryExists k) _) (by simp [specRepositoryStep])
  have o2 : linkFailure (h.Symlink (h.Stat s (env.RepositoryPathFor r.Id)).1
      (env.PublicKeyPathFor (KeyFingerprint env pk))
      (env.GitAccessPathFor r.Id (KeyFingerprint env pk) r.Write)).2 = none :=
    hok (StepResult.mk i (SubStep.repositoryLink k)
      (linkFailure (h.Symlink (h.Stat s (env.RepositoryPathFor r.Id)).1
        (env.PublicKeyPathFor (KeyFingerprint env pk))
        (env.GitAccessPathFor r.Id (KeyFingerprint env pk) r.Write)).2))
      (by simp [specRepositoryStep])
  obtain ⟨m1, m2⟩ := repositoryChecks_mem env d pk r hr
  have j1 := repositoryCalls_mem env d pk hpk r hr (Call.stat (env.RepositoryPathFor r.Id))
    (by simp [repositoryCalls])
  have j2 := repositoryCalls_mem env d pk hpk r hr
    (Call.symlink (env.PublicKeyPathFor (KeyFingerprint env pk))
      (env.GitAccessPathFor r.Id (KeyFingerprint env pk) r.Write)) (by simp [repositoryCalls])
  have i1 : Inv (h.Stat s (env.RepositoryPathFor r.Id)).1 := hS.closed _ j1 s hi
  have a1 : settledAt h (Call.stat (env.RepositoryPathFor r.Id))
      (h.Stat s (env.RepositoryPathFor r.Id)).1 := hS.settle pk hpk _ m1 s hi o1
  have i2 := hS.closed _ j2 _ i1
  have a2 := hS.keep pk hpk _ m1 _ j2 _ i1 a1
  have b2 := hS.settle pk hpk _ m2 _ i1 o2
  simp only [KeyHost.perform] at i1 a1 i2 a2 b2
  simp only [specRepositoryStep]
  exact ⟨i2, a2, b2⟩

theorem specRepositorySteps_establish (d : ExtendedCreateKeysData) (Inv : σ → Prop)
    (hS : Steady h env d Inv) (i : Nat) (pk : PK) (hpk : pk ∈ parsedKeys env d)
    (rs : List RepositoryPermission) (hrs : ∀ r ∈ rs, r ∈ d.Repositories) (k : Nat) (s : σ)
    (hi : Inv s)
    (hok : ∀ e ∈ (specRepositorySteps h env i (env.PublicKeyPathFor (KeyFingerprint env pk))
      (KeyFingerprint env pk) k rs s).1, e.failure = none) :
    Inv (specRepositorySteps h env i (env.PublicKeyPathFor (KeyFingerprint env pk))
        (KeyFingerprint env pk) k rs s).2 ∧
      ∀ r ∈ rs, repositorySettled h env pk r (specRepositorySteps h env i
        (env.PublicKeyPathFor (KeyFingerprint env pk)) (KeyFingerprint env pk) k rs s).2 := by
  induction rs generalizing k s with
  | nil => exact ⟨hi, by simp⟩
  | cons r rest ih =>
    have hrest : ∀ x ∈ rest, x ∈ d.Repositories :=
      fun x hx => hrs x (List.mem_cons_of_mem _ hx)
    have hr : r ∈ d.Repositories := hrs r (List.mem_cons_self _ _)
    simp only [specRepositorySteps] at hok ⊢
    obtain ⟨hi1, hhead⟩ := specRepositoryStep_establish h env d Inv hS i pk hpk k r hr s hi
      (fun e he => hok e (List.mem_append_left _ he))
    obtain ⟨hi2, htail⟩ := ih hrest (k + 1) _ hi1
      (fun e he => hok e (List.mem_append_right _ he))
    refine ⟨hi2, ?_⟩
    intro x hx
    rcases List.mem_cons.1 hx with rfl | hx
    · exact (specRepositorySteps_stable h env d _
        (stable_repositorySettled h env d Inv hS pk hpk x hr) i pk hpk rest hrest _ _
        ⟨hi1, hhead⟩).2
    · exact htail x hx

theorem specKeySteps_establish (d : ExtendedCreateKeysData) (Inv : σ → Prop)
    (hS : Steady h env d Inv) (i : Nat) (key : KeyData) (hk : key ∈ d.Keys) (s : σ)
    (hi : Inv s) (hok : ∀ e ∈ (specKeySteps h env d i key s).1, e.failure = none) :
    Inv (specKeySteps h env d i key s).2 ∧
      ∃ pk, env.ParseAuthorizedKey key.Value = some pk ∧
        keySettled h env d pk (specKeySteps h env d i key s).2 := by
  cases hp : env.ParseAuthorizedKey key.Value with
  | none =>
    have := hok (StepResult.mk i SubStep.parse (some (errorsNew "Unable to parse key")))
      (by simp [specKeySteps, hp])
    simp at this
  | some pk =>
    have hpk := mem_parsedKeys env d key pk hk hp
    cases hw : (h.AtomicWriteToContentPath s (env.PublicKeyPathFor (KeyFingerprint env pk))
      0o660 (env.MarshalAuthorizedKey pk)).2 with
    | some err =>
      have := hok (StepResult.mk i SubStep.store (some err)) (by simp [specKeySteps, hp, hw])
      simp at this
    | none =>
      rw [specKeySteps_stored env h d i key pk s hp hw] at hok ⊢
      have hc := storeCall_mem env d pk hpk
      have iw : Inv (h.AtomicWriteToContentPath s
          (env.PublicKeyPathFor (KeyFingerprint env pk)) 0o660
          (env.MarshalAuthorizedKey pk)).1 := hS.closed _ hc s hi
      have sw : settledAt h (storeCall env pk) (h.AtomicWriteToContentPath s
          (env.PublicKeyPathFor (KeyFingerprint env pk)) 0o660
          (env.MarshalAuthorizedKey pk)).1 :=
        hS.settle pk hpk _ (List.mem_cons_self _ _) s hi hw
      obtain ⟨ig, hg⟩ := specGearSteps_establish h env d Inv hS i pk hpk d.Gears
        (fun _ hx => hx) 0 _ iw (fun e he => hok e
          (List.mem_cons_of_mem _ (List.mem_cons_of_mem _ (List.mem_append_left _ he))))
      obtain ⟨ir, hr⟩ := specRepositorySteps_establish h env d Inv hS i pk hpk d.Repositories
        (fun _ hx => hx) 0 _ ig (fun e he => hok e
          (List.mem_cons_of_mem _ (List.mem_cons_of_mem _ (List.mem_append_right _ he))))
      have hstore := steady_settled h env d Inv hS pk hpk (storeCall env pk)
        (List.mem_cons_self _ _)
      have sg := specGearSteps_stable h env d _ hstore i pk hpk d.Gears (fun _ hx => hx) 0 _
        ⟨iw, sw⟩
      have sr := specRepositorySteps_stable h env d _ hstore i pk hpk d.Repositories
        (fun _ hx => hx) 0 _ sg
      refine ⟨ir, pk, rfl, sr.2, ?_, hr⟩
      intro g hgm
      exact (specRepositorySteps_stable h env d _
        (stable_gearSettled h env d Inv hS pk hpk g hgm) i pk hpk d.Repositories
        (fun _ hx => hx) 0 _ ⟨ig, hg g hgm⟩).2

theorem specSteps_establish (d : ExtendedCreateKeysData) (Inv : σ → Prop)
    (hS : Steady h env d Inv) (keys : List KeyData) (hkeys : ∀ key ∈ keys, key ∈ d.Keys)
    (i : Nat) (s : σ) (hi : Inv s)
    (hok : ∀ e ∈ (specSteps h env d i keys s).1, e.failure = none) :
    Inv (specSteps h env d i keys s).2 ∧
      ∀ key ∈ keys, ∃ pk, env.ParseAuthorizedKey key.Value = some pk ∧
        keySettled h env d pk (specSteps h env d i keys s).2 := by
  induction keys generalizing i s with
  | nil => exact ⟨hi, by simp⟩
  | cons key rest ih =>
    have hrest : ∀ x ∈ rest, x ∈ d.Keys := fun x hx => hkeys x (List.mem_cons_of_mem _ hx)
    have hk : key ∈ d.Keys := hkeys key (List.mem_cons_self _ _)
    simp only [specSteps] at hok ⊢
    obtain ⟨hi1, pk, hp, hhead⟩ := specKeySteps_establish h env d Inv hS i key hk s hi
      (fun e he => hok e (List.mem_append_left _ he))
    obtain ⟨hi2, htail⟩ := ih hrest (i + 1) _ hi1
      (fun e he => hok e (List.mem_append_right _ he))
    refine ⟨hi2, ?_⟩
    intro x hx
    rcases List.mem_cons.1 hx with rfl | hx
    · exact ⟨pk, hp, (specSteps_stable h env d _
        (stable_keySettled h env d Inv hS pk (mem_parsedKeys env d x pk hk hp)) rest hrest _ _
        ⟨hi1, hhead⟩).2⟩
    · exact htail x hx

end Regrant

/-- C6 (as amended): granting again changes nothing on a host that answers the batch
steadily (`Steady`): a call that has just succeeded succeeds again without changing the
state, which for the write is the idempotence of storing identical content; a legacy path
found absent or just removed stays absent; and no later call of the job undoes either.  On
such a host, if `Execute` reports success then running it again with the same batch on the
resulting state reports success again and leaves that state exactly as it was: no link is
added and no stored key file is altered. -/
theorem regrant_is_idempotent {σ PK : Type} (h : KeyHost σ) (env : KeyEnv PK)
    (j : CreateKeysRequest) (s : σ) (Inv : σ → Prop) (hS : Steady h env j.Data Inv)
    (hs : Inv s) (hok : (j.Execute h env s).2 = Response.Success) :
    j.Execute h env (j.Execute h env s).1
      = ((j.Execute h env s).1, Response.Success) := by
  have hall : ∀ e ∈ (specSteps h env j.Data 0 j.Data.Keys s).1, e.failure = none := by
    rw [execute_eq_spec] at hok
    simp only [specResponse] at hok
    split_ifs at hok with h0
    intro e he
    have := List.filterMap_eq_nil_iff.1 h0 e he
    cases hf : e.failure with
    | none => rfl
    | some err => simp [stepEntry, hf] at this
  obtain ⟨_, hset⟩ := specSteps_establish h env j.Data Inv hS j.Data.Keys (fun _ hx => hx) 0 s
    hs hall
  have hfst : (j.Execute h env s).1 = (specSteps h env j.Data 0 j.Data.Keys s).2 := by
    rw [execute_eq_spec]
  rw [hfst]
  obtain ⟨h1, h2⟩ := specSteps_settled h env j.Data j.Data.Keys _ hset 0
  rw [execute_eq_spec, h1]
  congr 1
  simp only [specResponse]
  rw [if_pos]
  apply List.filterMap_eq_nil_iff.2
  intro e he
  simp [stepEntry, h2 e he]

theorem regrant_is_idempotent_witness :
    (oneKeyRequest.Execute memHost exampleEnv readyFS).2 = Response.Success ∧
    oneKeyRequest.Execute memHost exampleEnv (oneKeyRequest.Execute memHost exampleEnv readyFS).1
      = ((oneKeyRequest.Execute memHost exampleEnv readyFS).1, Response.Success) :=
  ⟨by decide,
    regrant_is_idempotent memHost exampleEnv oneKeyRequest readyFS (fun s => s ∈ readyStates)
      ⟨by decide, by decide, by decide, by decide, by decide, by decide⟩ (by decide)
      (by decide)⟩

/-- C6 as stated fails.  With the unit path of the gear a link to its legacy
authorized-keys file, the first run succeeds and removes the legacy file, which leaves the
link dangling, and the second run fails at the existence check.  And with the access path
held by a regular file both runs succeed although the grant is represented by no symlink. -/
theorem regrant_fails_after_legacy_removal :
    (gearOnlyRequest.Execute memHost exampleEnv linkedFS).2 = Response.Success ∧
    (gearOnlyRequest.Execute memHost exampleEnv
        (gearOnlyRequest.Execute memHost exampleEnv linkedFS).1).2
      = Response.Failure "Not all keys were completed"
          [⟨0, "stat /units/g1: no such file or directory"⟩] ∧
    (gearOnlyRequest.Execute memHost exampleEnv occupiedFS).2 = Response.Success ∧
    gearOnlyRequest.Execute memHost exampleEnv
        (gearOnlyRequest.Execute memHost exampleEnv occupiedFS).1
      = ((gearOnlyRequest.Execute memHost exampleEnv occupiedFS).1, Response.Success) ∧
    (gearOnlyRequest.Execute memHost exampleEnv occupiedFS).1.lookup "/access/ssh/g1/abcd"
      = some (Node.file 0o600 [1, 2, 3]) := by
  decide

/-! ## Host user reconciliation -/

section Cleanup

variable {σ U : Type} (h : CleanHost σ U) (env : CleanEnv U)

theorem mapSet_keys (m : List (String × String)) (k v : String) (x : String) :
    x ∈ (mapSet m k v).map Prod.fst ↔ x ∈ m.map Prod.fst ∨ x = k := by
  simp only [mapSet, List.map_append, List.mem_append, List.mem_map, List.mem_filter,
    List.map_cons, List.map_nil, List.mem_singleton]
  constructor
  · rintro (⟨e, ⟨he, _⟩, rfl⟩ | rfl)
    · exact Or.inl ⟨e, he, rfl⟩
    · exact Or.inr rfl
  · rintro (⟨e, he, rfl⟩ | rfl)
    · by_cases hk : e.1 = k
      · exact Or.inr hk
      · exact Or.inl ⟨e, ⟨he, by simpa using hk⟩, rfl⟩
    · exact Or.inr rfl

theorem mapSet_nodup (m : List (String × String)) (k v : String)
    (hm : (m.map Prod.fst).Nodup) : ((mapSet m k v).map Prod.fst).Nodup := by
  simp only [mapSet, List.map_append, List.map_cons, List.map_nil]
  rw [List.nodup_append]
  refine ⟨(hm.sublist ((List.filter_sublist m).map Prod.fst)), List.nodup_singleton k, ?_⟩
  intro a ha hb
  rw [List.mem_singleton] at hb
  subst hb
  obtain ⟨e, he, hfst⟩ := List.mem_map.1 ha
  have := (List.mem_filter.1 he).2
  simp [hfst] at this

theorem scan_fold (pfx : String) (lines : List String) (m : List (String × String))
    (hm : (m.map Prod.fst).Nodup) :
    ((lines.foldl
        (fun ctrUsers text =>
          if stringsHasPrefix ((stringsSplit (stringsTrimSpace text) ':').headD "") pfx then
            mapSet ctrUsers ((stringsSplit (stringsTrimSpace text) ':').headD "")
              (stringsTrimSpace text)
          else ctrUsers) m).map Prod.fst).Nodup ∧
      ∀ x, x ∈ (lines.foldl
        (fun ctrUsers text =>
          if stringsHasPrefix ((stringsSplit (stringsTrimSpace text) ':').headD "") pfx then
            mapSet ctrUsers ((stringsSplit (stringsTrimSpace text) ':').headD "")
              (stringsTrimSpace text)
          else ctrUsers) m).map Prod.fst ↔
        x ∈ m.map Prod.fst ∨
          ∃ text ∈ lines, userOfLine text = x ∧ stringsHasPrefix x pfx = true := by
  induction lines generalizing m with
  | nil => simp [hm]
  | cons text rest ih =>
    simp only [List.foldl_cons]
    by_cases hpre :
        stringsHasPrefix ((stringsSplit (stringsTrimSpace text) ':').headD "") pfx = true
    · rw [if_pos hpre]
      obtain ⟨h1, h2⟩ := ih (mapSet m _ (stringsTrimSpace text)) (mapSet_nodup m _ _ hm)
      refine ⟨h1, ?_⟩
      intro x
      rw [h2 x, mapSet_keys]
      simp only [List.mem_cons, userOfLine]
      constructor
      · rintro ((hx | rfl) | ⟨t, ht, hu, hp⟩)
        · exact Or.inl hx
        · exact Or.inr ⟨text, Or.inl rfl, rfl, hpre⟩
        · exact Or.inr ⟨t, Or.inr ht, hu, hp⟩
      · rintro (hx | ⟨t, rfl | ht, hu, hp⟩)
        · exact Or.inl (Or.inl hx)
        · exact Or.inl (Or.inr hu.symm)
        · exact Or.inr ⟨t, ht, hu, hp⟩
    · rw [if_neg hpre]
      obtain ⟨h1, h2⟩ := ih m hm
      refine ⟨h1, ?_⟩
      intro x
      rw [h2 x]
      simp only [List.mem_cons, userOfLine]
      constructor
      · rintro (hx | ⟨t, ht, hu, hp⟩)
        · exact Or.inl hx
        · exact Or.inr ⟨t, Or.inr ht, hu, hp⟩
      · rintro (hx | ⟨t, rfl | ht, hu, hp⟩)
        · exact Or.inl hx
        · rw [← hu] at hp
          exact absurd hp hpre
        · exact Or.inr ⟨t, ht, hu, hp⟩

theorem scanPasswd_keys (pfx : String) (lines : List String) :
    ((scanPasswd pfx lines).map Prod.fst).Nodup ∧
      ∀ x, x ∈ (scanPasswd pfx lines).map Prod.fst ↔
        ∃ text ∈ lines, userOfLine text = x ∧ stringsHasPrefix x pfx = true := by
  obtain ⟨h1, h2⟩ := scan_fold pfx lines [] (by simp)
  refine ⟨h1, ?_⟩
  intro x
  have := h2 x
  simp only [List.map_nil, List.not_mem_nil, false_or] at this
  exact this

theorem cleanUser_delete (st : (σ × List String) × List LogLine) (name : String) :
    (cleanUser h.recording env ⟨false⟩ st name).1
      = if isOrphan h env st.1.1 name = true then
          ((h.Userdel st.1.1 name).1, st.1.2 ++ [name])
        else st.1 := by
  unfold cleanUser isOrphan deriveIdentifier
  simp only [CleanHost.recording]
  cases hl : h.Lookup st.1.1 name with
  | error e => simp
  | ok u =>
    cases hn : env.NewIdentifierFromUser u with
    | error e => simp [hn]
    | ok id =>
      simp only [hn]
      by_cases hx : osIsNotExist (h.Stat st.1.1 (env.UnitPathFor id)) = true
      · simp only [hx, if_true, Bool.false_eq_true, if_false]
        split <;> rfl
      · simp [hx]

theorem cleanLoop_delete (s0 : σ)
    (hStat : ∀ (s : σ) (n p : String), h.Stat (h.Userdel s n).1 p = h.Stat s p)
    (hLookup : ∀ (s : σ) (n m : String), m ≠ n → h.Lookup (h.Userdel s n).1 m = h.Lookup s m)
    (us : List String) (hnd : us.Nodup) (st : (σ × List String) × List LogLine)
    (hS : ∀ p, h.Stat st.1.1 p = h.Stat s0 p)
    (hL : ∀ m ∈ us, h.Lookup st.1.1 m = h.Lookup s0 m) :
    (us.foldl (cleanUser h.recording env ⟨false⟩) st).1.2
      = st.1.2 ++ us.filter (isOrphan h env s0) := by
  induction us generalizing st with
  | nil => simp
  | cons u rest ih =>
    have hu : isOrphan h env st.1.1 u = isOrphan h env s0 u := by
      unfold isOrphan deriveIdentifier
      rw [hL u (List.mem_cons_self _ _)]
      simp only [hS]
    have hnd' := (List.nodup_cons.1 hnd)
    rw [List.foldl_cons]
    have hstep := cleanUser_delete h env st u
    rw [hu] at hstep
    by_cases ho : isOrphan h env s0 u = true
    · rw [if_pos ho] at hstep
      rw [ih hnd'.2 _ (by rw [hstep]; intro p; rw [hStat]; exact hS p)
        (by
          rw [hstep]
          intro m hm
          have hne : m ≠ u := by
            rintro rfl
            exact hnd'.1 hm
          rw [hLookup _ _ _ hne]
          exact hL m (List.mem_cons_of_mem _ hm))]
      rw [hstep, List.filter_cons_of_pos ho]
      simp
    · rw [if_neg ho] at hstep
      rw [ih hnd'.2 _ (by rw [hstep]; exact hS)
        (by rw [hstep]; exact fun m hm => hL m (List.mem_cons_of_mem _ hm))]
      rw [hstep, List.filter_cons_of_neg ho]

theorem cleanUser_dry (st : σ × List LogLine) (name : String) :
    (cleanUser h env ⟨true⟩ st name).1 = st.1 ∧
      infoLines (cleanUser h env ⟨true⟩ st name).2
        = infoLines st.2
          ++ if isOrphan h env st.1 name = true then [name ++ " could be removed."]
            else [] := by
  unfold cleanUser isOrphan deriveIdentifier
  cases hl : h.Lookup st.1 name with
  | error e => simp [infoLines]
  | ok u =>
    cases hn : env.NewIdentifierFromUser u with
    | error e => simp [hn, infoLines]
    | ok id =>
      simp only [hn]
      by_cases hx : osIsNotExist (h.Stat st.1 (env.UnitPathFor id)) = true
      · simp [hx, infoLines]
      · simp [hx]

theorem cleanLoop_dry (us : List String) (st : σ × List LogLine) :
    (us.foldl (cleanUser h env ⟨true⟩) st).1 = st.1 ∧
      infoLines (us.foldl (cleanUser h env ⟨true⟩) st).2
        = infoLines st.2
          ++ (us.filter (isOrphan h env st.1)).map fun n => n ++ " could be removed." := by
  induction us generalizing st with
  | nil => simp
  | cons u rest ih =>
    obtain ⟨h1, h2⟩ := cleanUser_dry h env st u
    obtain ⟨i1, i2⟩ := ih (cleanUser h env ⟨true⟩ st u)
    rw [List.foldl_cons]
    refine ⟨by rw [i1, h1], ?_⟩
    rw [i2, h2, h1]
    by_cases ho : isOrphan h env st.1 u = true
    · rw [if_pos ho, List.filter_cons_of_pos ho]
      simp
    · rw [if_neg ho, List.filter_cons_of_neg ho]
      simp

theorem clean_dry (range : List String → List String) (s : σ) :
    (UsersCleanup.Clean h env range ⟨true⟩ s).1 = s ∧
      ∀ lines, h.OpenPasswd s = Except.ok lines →
        infoLines (UsersCleanup.Clean h env range ⟨true⟩ s).2
          = "--- HOST USERS CLEANUP ---"
            :: ((range ((scanPasswd env.IdentifierPrefix lines).map Prod.fst)).filter
                  (isOrphan h env s)).map fun n => n ++ " could be removed." := by
  unfold UsersCleanup.Clean
  cases hopen : h.OpenPasswd s with
  | error e => simp
  | ok lines =>
    simp only []
    obtain ⟨h1, h2⟩ := cleanLoop_dry h env
      (range ((scanPasswd env.IdentifierPrefix lines).map Prod.fst))
      (s, [LogLine.info "--- HOST USERS CLEANUP ---"])
    refine ⟨h1, ?_⟩
    intro lines2 heq
    cases heq
    rw [h2]
    simp [infoLines]

end Cleanup

/-- C8: a pass of `Clean` that is not a dry run invokes account deletion for a user name
exactly when the name is the first field of a trimmed line of the user database, carries the
container-identifier prefix, yields a container identifier, and the host reports that no unit
file exists at the unit path of that identifier; it does so at most once, and not at all when
the user database cannot be opened. Deleting one account is assumed not to change what the
host answers about unit files or about other accounts. -/
theorem clean_deletes_exactly_orphans {σ U : Type} (h : CleanHost σ U) (env : CleanEnv U)
    (range : List String → List String) (s : σ)
    (hrange : ∀ l, (range l).Perm l)
    (hStat : ∀ (s : σ) (n p : String), h.Stat (h.Userdel s n).1 p = h.Stat s p)
    (hLookup : ∀ (s : σ) (n m : String), m ≠ n →
      h.Lookup (h.Userdel s n).1 m = h.Lookup s m) :
    (∀ lines, h.OpenPasswd s = Except.ok lines → ∀ name : String,
      name ∈ (UsersCleanup.Clean h.recording env range ⟨false⟩ (s, [])).1.2 ↔
        (∃ text ∈ lines, userOfLine text = name ∧
          stringsHasPrefix name env.IdentifierPrefix = true) ∧
        ∃ id, deriveIdentifier h env s name = some id ∧
          osIsNotExist (h.Stat s (env.UnitPathFor id)) = true) ∧
    (∀ err, h.OpenPasswd s = Except.error err →
      (UsersCleanup.Clean h.recording env range ⟨false⟩ (s, [])).1.2 = []) ∧
    (UsersCleanup.Clean h.recording env range ⟨false⟩ (s, [])).1.2.Nodup := by
  have horph : ∀ name, isOrphan h env s name = true ↔
      ∃ id, deriveIdentifier h env s name = some id ∧
        osIsNotExist (h.Stat s (env.UnitPathFor id)) = true := by
    intro name
    unfold isOrphan
    cases deriveIdentifier h env s name <;> simp
  have hjournal : ∀ lines, h.OpenPasswd s = Except.ok lines →
      (UsersCleanup.Clean h.recording env range ⟨false⟩ (s, [])).1.2
        = (range ((scanPasswd env.IdentifierPrefix lines).map Prod.fst)).filter
            (isOrphan h env s) := by
    intro lines hopen
    unfold UsersCleanup.Clean
    have : h.recording.OpenPasswd (s, []) = Except.ok lines := hopen
    simp only [this]
    rw [cleanLoop_delete h env s hStat hLookup _
      ((hrange _).nodup_iff.2 (scanPasswd_keys env.IdentifierPrefix lines).1) _
      (fun _ => rfl) (fun _ _ => rfl)]
    simp
  have hfail : ∀ err, h.OpenPasswd s = Except.error err →
      (UsersCleanup.Clean h.recording env range ⟨false⟩ (s, [])).1.2 = [] := by
    intro err hopen
    unfold UsersCleanup.Clean
    have : h.recording.OpenPasswd (s, []) = Except.error err := hopen
    simp only [this]
  refine ⟨?_, hfail, ?_⟩
  · intro lines hopen name
    rw [hjournal lines hopen, List.mem_filter, (hrange _).mem_iff,
      (scanPasswd_keys env.IdentifierPrefix lines).2 name, horph name]
  · cases hopen : h.OpenPasswd s with
    | error err => rw [hfail err hopen]; exact List.nodup_nil
    | ok lines =>
      rw [hjournal lines hopen]
      exact ((hrange _).nodup_iff.2 (scanPasswd_keys env.IdentifierPrefix lines).1).filter _

theorem clean_deletes_exactly_orphans_witness :
    ("gear_abc" ∈ (UsersCleanup.Clean exampleCleanHost.recording exampleCleanEnv id ⟨false⟩
        (exampleOS, [])).1.2 ↔
      (∃ text ∈ exampleOS.passwd, userOfLine text = "gear_abc" ∧
        stringsHasPrefix "gear_abc" exampleCleanEnv.IdentifierPrefix = true) ∧
      ∃ id, deriveIdentifier exampleCleanHost exampleCleanEnv exampleOS "gear_abc" = some id ∧
        osIsNotExist (exampleCleanHost.Stat exampleOS (exampleCleanEnv.UnitPathFor id))
          = true) ∧
    (UsersCleanup.Clean exampleCleanHost.recording exampleCleanEnv id ⟨false⟩
        (exampleOS, [])).1.2 = ["gear_abc"] :=
  ⟨(clean_deletes_exactly_orphans exampleCleanHost exampleCleanEnv id exampleOS
      (fun l => List.Perm.refl l) (fun _ _ _ => rfl)
      (fun s n m hne => by simp [exampleCleanHost, hne])).1 exampleOS.passwd rfl "gear_abc",
    by decide⟩

/-- C9: a dry run never changes the host.  With `DryRun` set, `Clean` leaves the host state
as it was and invokes account deletion for no user, whether or not a unit file exists; what
it writes to the info log is the banner followed by one report naming each orphaned
account. -/
theorem dry_run_deletes_nothing {σ U : Type} (h : CleanHost σ U) (env : CleanEnv U)
    (range : List String → List String) (s : σ) (journal : List String) :
    (UsersCleanup.Clean h.recording env range ⟨true⟩ (s, journal)).1 = (s, journal) ∧
    (UsersCleanup.Clean h env range ⟨true⟩ s).1 = s ∧
    (∀ lines, h.OpenPasswd s = Except.ok lines →
      infoLines (UsersCleanup.Clean h.recording env range ⟨true⟩ (s, journal)).2
        = "--- HOST USERS CLEANUP ---"
          :: ((range ((scanPasswd env.IdentifierPrefix lines).map Prod.fst)).filter
                (isOrphan h env s)).map fun n => n ++ " could be removed.") := by
  have hrec := clean_dry h.recording env range (s, journal)
  have horph : isOrphan h.recording env (s, journal) = isOrphan h env s := rfl
  rw [horph] at hrec
  exact ⟨hrec.1, (clean_dry h env range s).1, fun lines hopen => hrec.2 lines hopen⟩

theorem dry_run_deletes_nothing_witness :
    infoLines (UsersCleanup.Clean exampleCleanHost.recording exampleCleanEnv id ⟨true⟩
        (exampleOS, [])).2
      = "--- HOST USERS CLEANUP ---"
        :: ((id ((scanPasswd exampleCleanEnv.IdentifierPrefix exampleOS.passwd).map
              Prod.fst)).filter (isOrphan exampleCleanHost exampleCleanEnv exampleOS)).map
            fun n => n ++ " could be removed." :=
  (dry_run_deletes_nothing exampleCleanHost exampleCleanEnv id exampleOS []).2.2
    exampleOS.passwd rfl

/-! ## The fingerprint -/

/-- C10: `KeyFingerprint` is a function of the wire encoding of the key and has a fixed
width: keys with equal wire encodings have equal fingerprints, every fingerprint is the
32-byte SHA-256 digest of the wire encoding, and so keys with equal wire encodings get the
same storage path and the same access-link names for every target. -/
theorem fingerprint_of_wire_encoding {PK : Type} (env : KeyEnv PK) :
    (∀ k1 k2 : PK, env.Marshal k1 = env.Marshal k2 →
      KeyFingerprint env k1 = KeyFingerprint env k2) ∧
    (∀ k : PK, KeyFingerprint env k = (env.Sum256 (env.Marshal k)).bytes ∧
      (KeyFingerprint env k).length = 32) ∧
    (∀ k1 k2 : PK, env.Marshal k1 = env.Marshal k2 →
      env.PublicKeyPathFor (KeyFingerprint env k1)
          = env.PublicKeyPathFor (KeyFingerprint env k2) ∧
        (∀ id, env.SshAccessPathFor id (KeyFingerprint env k1)
          = env.SshAccessPathFor id (KeyFingerprint env k2)) ∧
        (∀ id w, env.GitAccessPathFor id (KeyFingerprint env k1) w
          = env.GitAccessPathFor id (KeyFingerprint env k2) w)) := by
  have hfp : ∀ k1 k2 : PK, env.Marshal k1 = env.Marshal k2 →
      KeyFingerprint env k1 = KeyFingerprint env k2 := by
    intro k1 k2 hm
    unfold KeyFingerprint
    rw [hm]
  refine ⟨hfp, ?_, ?_⟩
  · intro k
    exact ⟨rfl, (env.Sum256 (env.Marshal k)).size_eq⟩
  · intro k1 k2 hm
    rw [hfp k1 k2 hm]
    exact ⟨rfl, fun _ => rfl, fun _ _ => rfl⟩

theorem fingerprint_of_wire_encoding_witness :
    exampleEnv.Marshal "a" = exampleEnv.Marshal "\u0161" ∧
      KeyFingerprint exampleEnv "a" = KeyFingerprint exampleEnv "\u0161" :=
  ⟨by decide, (fingerprint_of_wire_encoding exampleEnv).1 "a" "\u0161" (by decide)⟩

end Geard
